import Mathlib

/-!
# Contrast arena: shallow embedding and verification

This file embeds the core of the Contrast playing stack (rules engine,
alpha-beta searcher with transposition table, MCTS visit accounting,
N-tuple evaluator, weight-file loading, and the match server's move
handling) as executable Lean definitions translated from the C++ source,
and proves or refutes the specification claims about them.

Conventions:
* C++ `int` coordinates are `Int`; machine 64-bit values are `Nat`
  taken `% 2^64` where overflow can occur.
* `float` quantities that feed back into control flow are modelled over
  an exact ordered domain (`Rat`, extended with infinities where the
  code uses IEEE infinities); quantities whose exact rounding never
  influences the verified properties are modelled as parameters.
* The fixed-capacity `MoveList` (2048 entries, later pushes silently
  dropped) is modelled by `List.take 2048` of the unbounded push
  sequence.
-/

namespace Contrast

/-- `Player` enumeration from `types.hpp` (`None = 0, Black = 1, White = 2`). -/
inductive Player where
  | none : Player
  | black : Player
  | white : Player
deriving DecidableEq, Repr

/-- Numeric value of a `Player`, as used by the C++ casts to integers. -/
def Player.toNat : Player → Nat
  | .none => 0
  | .black => 1
  | .white => 2

/-- `TileType` enumeration from `types.hpp` (`None = 0, Black = 1, Gray = 2`). -/
inductive TileType where
  | none : TileType
  | black : TileType
  | gray : TileType
deriving DecidableEq, Repr

/-- Numeric value of a `TileType`, as used by the C++ casts to integers. -/
def TileType.toNat : TileType → Nat
  | .none => 0
  | .black => 1
  | .gray => 2

/-- A board cell: occupant plus tile, from `board.hpp`. -/
structure Cell where
  occupant : Player
  tile : TileType
deriving DecidableEq, Repr

/-- The default-constructed cell (empty, no tile). -/
def Cell.empty : Cell := ⟨.none, .none⟩

/-- The 5×5 board, 25 cells in row-major order (`y*5+x`), from `board.hpp`. -/
structure Board where
  cells : List Cell
deriving DecidableEq, Repr

/-- `Board::in_bounds`. -/
def inBounds (x y : Int) : Bool :=
  decide (0 ≤ x) && decide (x < 5) && decide (0 ≤ y) && decide (y < 5)

/-- `Board::at` (read). All call sites in the modelled code are guarded by
`in_bounds`, so the out-of-range default is never exercised. -/
def Board.at (b : Board) (x y : Int) : Cell :=
  b.cells.getD (y * 5 + x).toNat Cell.empty

/-- Write a single cell (the C++ `at(x,y) = c` / field assignment). -/
def Board.setCell (b : Board) (x y : Int) (c : Cell) : Board :=
  ⟨b.cells.set (y * 5 + x).toNat c⟩

/-- Write just the occupant of a cell. -/
def Board.setOcc (b : Board) (x y : Int) (p : Player) : Board :=
  b.setCell x y ⟨p, (b.at x y).tile⟩

/-- Write just the tile of a cell. -/
def Board.setTile (b : Board) (x y : Int) (t : TileType) : Board :=
  b.setCell x y ⟨(b.at x y).occupant, t⟩

/-- `Board::reset`: row 0 all Black, row 4 all White, everything else empty. -/
def Board.initial : Board :=
  ⟨(List.range 25).map fun i =>
    if i < 5 then ⟨.black, .none⟩
    else if 20 ≤ i then ⟨.white, .none⟩
    else Cell.empty⟩

/-- Per-player tile inventory from `game_state.hpp` (`black = 3, gray = 1`). -/
structure TileInventory where
  black : Int
  gray : Int
deriving DecidableEq, Repr

/-- Default-constructed inventory. -/
def TileInventory.initial : TileInventory := ⟨3, 1⟩

/-- A move, from `move.hpp` (defaults: coordinates `-1`, no placement). -/
structure Move where
  sx : Int := -1
  sy : Int := -1
  dx : Int := -1
  dy : Int := -1
  placeTile : Bool := false
  tx : Int := -1
  ty : Int := -1
  tile : TileType := .none
deriving DecidableEq, Repr

/-- Repetition history: multiset of position hashes kept as an association
list from hash to count (`std::unordered_map<uint64_t,int>`). -/
def History := List (Nat × Nat)

instance : DecidableEq History := by
  unfold History; infer_instance

/-- Look up a hash count (`history_[h]`, absent keys read as 0). -/
def History.count (h : History) (key : Nat) : Nat :=
  match h.find? (fun e => e.1 == key) with
  | some e => e.2
  | _ => 0

/-- Increment a hash count (`history_[h] += 1`; inserts the key at 1 when
absent, matching `operator[]` default-construction to 0 then `+1`). -/
def History.bump (h : History) (key : Nat) : History :=
  match h with
  | [] => [(key, 1)]
  | e :: rest =>
    if e.1 = key then (e.1, e.2 + 1) :: rest
    else e :: History.bump rest key

/-- The full game state from `game_state.hpp`. -/
structure GameState where
  board : Board
  toMove : Player
  invB : TileInventory
  invW : TileInventory
  history : History
deriving DecidableEq

/-- `GameState::inventory(p)` — note the C++ ternary sends every
non-Black player (including `None`) to the White inventory. -/
def GameState.inventory (s : GameState) (p : Player) : TileInventory :=
  if p = .black then s.invB else s.invW

/-- 2^64, the modulus for C++ `uint64_t` arithmetic. -/
def U64 : Nat := 18446744073709551616

/-- `GameState::compute_hash`: FNV-style fold over the 25 `(occupant, tile)`
pairs plus the side to move, with 64-bit wrapping multiplication. -/
def fnvMix (seed v : Nat) : Nat :=
  ((seed ^^^ v) * 1099511628211) % U64

/-- Hash of a state (`GameState::compute_hash`). -/
def GameState.computeHash (s : GameState) : Nat :=
  let cellFold := s.board.cells.foldl
    (fun acc c => fnvMix (fnvMix acc c.occupant.toNat) c.tile.toNat)
    1469598103934665603
  fnvMix cellFold s.toMove.toNat

/-- The freshly reset game state (`GameState::reset`). -/
def GameState.initial : GameState :=
  let s0 : GameState :=
    { board := Board.initial, toMove := .black,
      invB := TileInventory.initial, invW := TileInventory.initial,
      history := [] }
  { s0 with history := [(s0.computeHash, 1)] }

/-- The two guarded inventory decrements from `apply_move` (`inv.black -= 1`
only when positive, likewise for gray). -/
def decTile (inv : TileInventory) (t : TileType) : TileInventory :=
  { black := if t = .black ∧ inv.black > 0 then inv.black - 1 else inv.black,
    gray := if t = .gray ∧ inv.gray > 0 then inv.gray - 1 else inv.gray }

/-- `GameState::apply_move`, translated from `game_state.cpp`: bounds
guards first (early return leaves the state untouched), then piece
transfer, then the guarded tile placement with guarded inventory
decrement (the C++ mutates `inventory(p)` through a reference; here the
matching inventory field is rebuilt), then turn flip and history bump. -/
def GameState.applyMove (s : GameState) (m : Move) : GameState :=
  if ¬ inBounds m.sx m.sy then s
  else if ¬ inBounds m.dx m.dy then s
  else
    let b2 := (s.board.setOcc m.dx m.dy (s.board.at m.sx m.sy).occupant).setOcc m.sx m.sy .none
    let place : Bool := m.placeTile && inBounds m.tx m.ty &&
      decide ((b2.at m.tx m.ty).tile = .none) &&
      decide ((b2.at m.tx m.ty).occupant = .none)
    let b3 := if place then b2.setTile m.tx m.ty m.tile else b2
    let iB := if place && decide (s.toMove = .black) then decTile s.invB m.tile else s.invB
    let iW := if place && !decide (s.toMove = .black) then decTile s.invW m.tile else s.invW
    let toMove' : Player := if s.toMove = .black then .white else .black
    let s' : GameState :=
      { board := b3, toMove := toMove', invB := iB, invW := iW,
        history := s.history }
    { s' with history := s'.history.bump s'.computeHash }

/-! ## Rules engine (`rules.cpp`) -/

/-- Orthogonal step directions, in the order of `ORTHO`. -/
def orthoDirs : List (Int × Int) := [(1,0), (-1,0), (0,1), (0,-1)]

/-- Diagonal step directions, in the order of `DIAG`. -/
def diagDirs : List (Int × Int) := [(1,1), (1,-1), (-1,1), (-1,-1)]

/-- All eight king steps, in the order of `ALL_8`. -/
def all8Dirs : List (Int × Int) := [(1,0), (-1,0), (0,1), (0,-1), (1,1), (1,-1), (-1,1), (-1,-1)]

/-- Directions available to a piece, depending on the tile under it. -/
def dirsFor : TileType → List (Int × Int)
  | .none => orthoDirs
  | .black => diagDirs
  | .gray => all8Dirs

/-- The jump scan from `rules.cpp`: advance while in bounds and over own
pieces. The C++ `while` loop always terminates within 5 steps (each step
moves at least one coordinate by 1 on a 5-wide board); fuel 8 is enough
for every in-bounds starting point. -/
def slide (b : Board) (p : Player) (ddx ddy : Int) : Nat → Int → Int → Int × Int
  | 0, jx, jy => (jx, jy)
  | fuel + 1, jx, jy =>
    if inBounds jx jy ∧ (b.at jx jy).occupant = p then
      slide b p ddx ddy fuel (jx + ddx) (jy + ddy)
    else (jx, jy)

/-- The landing square of the jump scan started one step from `(x, y)`. -/
def jumpTarget (b : Board) (p : Player) (x y : Int) (d : Int × Int) : Int × Int :=
  slide b p d.1 d.2 8 (x + d.1) (y + d.2)

/-- The base move (if any) produced for piece `(x, y)` in direction `d`. -/
def baseMoveInDir (b : Board) (p : Player) (x y : Int) (d : Int × Int) : Option Move :=
  if ¬ inBounds (x + d.1) (y + d.2) then Option.none
  else if (b.at (x + d.1) (y + d.2)).occupant ≠ .none ∧
      (b.at (x + d.1) (y + d.2)).occupant ≠ p then Option.none
  else if (b.at (x + d.1) (y + d.2)).occupant = .none then
    some { sx := x, sy := y, dx := x + d.1, dy := y + d.2, placeTile := false }
  else if inBounds (jumpTarget b p x y d).1 (jumpTarget b p x y d).2 ∧
      (b.at (jumpTarget b p x y d).1 (jumpTarget b p x y d).2).occupant = .none then
    some { sx := x, sy := y, dx := (jumpTarget b p x y d).1,
           dy := (jumpTarget b p x y d).2, placeTile := false }
  else Option.none

/-- The base moves (without tile placement) generated for state `s`, in
generation order: `y` outer, `x` inner, directions in table order. -/
def baseMovesU (s : GameState) : List Move :=
  (List.range 5).flatMap fun y =>
    (List.range 5).flatMap fun x =>
      let xi : Int := x
      let yi : Int := y
      if (s.board.at xi yi).occupant = s.toMove then
        (dirsFor (s.board.at xi yi).tile).filterMap
          (baseMoveInDir s.board s.toMove xi yi)
      else []

/-- The tile-placement legality test from the augmentation loop:
cell tile-free, will be empty after the base move (currently empty of
pieces, or equal to the move's origin), and not the move's destination. -/
def placementOK (b : Board) (base : Move) (x y : Int) : Bool :=
  decide ((b.at x y).tile = .none) &&
  (decide ((b.at x y).occupant = .none) || (decide (x = base.sx) && decide (y = base.sy))) &&
  !(decide (x = base.dx) && decide (y = base.dy))

/-- The placement variants of one base move for one tile colour, scanning
cells in the same `y`-outer/`x`-inner order as the C++ loops. -/
def tileVariants (b : Board) (base : Move) (t : TileType) : List Move :=
  (List.range 5).flatMap fun y =>
    (List.range 5).flatMap fun x =>
      let xi : Int := x
      let yi : Int := y
      if placementOK b base xi yi then
        [{ base with placeTile := true, tx := xi, ty := yi, tile := t }]
      else []

/-- The unbounded push sequence of `Rules::legal_moves`: every base move
followed by its black-tile variants (when black tiles remain) and its
gray-tile variants (when gray tiles remain). The intermediate
`base_moves` `MoveList` is also capacity-limited in the C++, hence the
`take`; that cap never binds because at most 25·8 = 200 base moves exist
(`baseMovesU_length_le`). -/
def legalMovesU (s : GameState) : List Move :=
  ((baseMovesU s).take 2048).flatMap fun base =>
    base ::
      ((if (s.inventory s.toMove).black > 0 then tileVariants s.board base .black else []) ++
       (if (s.inventory s.toMove).gray > 0 then tileVariants s.board base .gray else []))

/-- `MoveList` capacity from `move_list.hpp`. -/
def MAX_MOVES : Nat := 2048

/-- `Rules::legal_moves`: the fixed-capacity `MoveList` keeps exactly the
first 2048 pushed moves and silently drops the rest. (The intermediate
`base_moves` list is also capacity-limited, but it can hold at most
25·8 = 200 entries, so its cap never binds; see `baseMovesU_length_le`.) -/
def legalMoves (s : GameState) : List Move :=
  (legalMovesU s).take MAX_MOVES

/-- `Rules::is_win`: any piece of `p` on the opponent's home row. -/
def isWin (s : GameState) (p : Player) : Bool :=
  let targetRow : Int := if p = .black then 4 else 0
  (List.range 5).any fun x => (s.board.at x targetRow).occupant = p

/-- `Rules::is_loss`: the side to move has no legal moves. -/
def isLoss (s : GameState) : Bool :=
  legalMoves s |>.isEmpty

/-- `Rules::is_draw`: the current position hash has been seen at least
four times. -/
def isDraw (s : GameState) : Bool :=
  s.history.count s.computeHash ≥ 4

/-- Reachable states: the initial position and everything obtained from a
reachable state by applying one of its generated legal moves. -/
inductive Reachable : GameState → Prop
  | init : Reachable GameState.initial
  | step {s : GameState} {m : Move} :
      Reachable s → m ∈ legalMoves s → Reachable (s.applyMove m)

/-! ## Basic board lemmas -/

theorem inBounds_iff {x y : Int} :
    inBounds x y = true ↔ 0 ≤ x ∧ x < 5 ∧ 0 ≤ y ∧ y < 5 := by
  simp [inBounds, Bool.and_eq_true, decide_eq_true_iff]
  tauto

theorem cellIndex_lt {x y : Int} (h : inBounds x y = true) : (y * 5 + x).toNat < 25 := by
  rw [inBounds_iff] at h; omega

theorem cellIndex_inj {x y x' y' : Int} (h : inBounds x y = true)
    (h' : inBounds x' y' = true) (hne : ¬(x = x' ∧ y = y')) :
    (y * 5 + x).toNat ≠ (y' * 5 + x').toNat := by
  rw [inBounds_iff] at h h'
  intro hc
  omega

theorem length_setCell (b : Board) (x y : Int) (c : Cell) :
    (b.setCell x y c).cells.length = b.cells.length := by
  simp [Board.setCell]

theorem at_setCell (b : Board) {x y : Int} (x' y' : Int) (c : Cell)
    (hlen : b.cells.length = 25) (hxy : inBounds x y = true)
    (hxy' : inBounds x' y' = true) :
    (b.setCell x y c).at x' y' = if x = x' ∧ y = y' then c else b.at x' y' := by
  unfold Board.setCell Board.at
  by_cases h : x = x' ∧ y = y'
  · obtain ⟨rfl, rfl⟩ := h
    have hlt : (y * 5 + x).toNat < b.cells.length := by rw [hlen]; exact cellIndex_lt hxy
    simp [List.getD_eq_getElem?_getD, List.getElem?_set_self hlt]
  · have hne := cellIndex_inj hxy hxy' h
    simp [List.getD_eq_getElem?_getD, List.getElem?_set_ne hne, h]

theorem occ_setTile (b : Board) {x y : Int} (t : TileType) (x' y' : Int)
    (hlen : b.cells.length = 25) (hxy : inBounds x y = true)
    (hxy' : inBounds x' y' = true) :
    ((b.setTile x y t).at x' y').occupant = (b.at x' y').occupant := by
  unfold Board.setTile
  rw [at_setCell b x' y' _ hlen hxy hxy']
  by_cases h : x = x' ∧ y = y'
  · obtain ⟨rfl, rfl⟩ := h; simp
  · simp [h]

/-! ## C10: out-of-bounds moves leave the state untouched -/

/-- C10. For every `GameState` and every `Move` whose origin or
destination lies outside the 5×5 board, `apply_move` returns with the
state entirely unchanged (board, inventories, side to move, history). -/
theorem c10_applyMove_out_of_bounds (s : GameState) (m : Move)
    (h : inBounds m.sx m.sy = false ∨ inBounds m.dx m.dy = false) :
    s.applyMove m = s := by
  unfold GameState.applyMove
  rcases h with h | h
  · rw [if_pos]; simp [h]
  · by_cases hs : inBounds m.sx m.sy = true
    · rw [if_neg (by simp [hs]), if_pos (by simp [h])]
    · rw [if_pos (by simp at hs ⊢; exact hs)]

/-- Witness for C10 at a concrete input: the default move has origin
`(-1, -1)`, and applying it to the initial state is a no-op. -/
theorem c10_witness :
    GameState.initial.applyMove { } = GameState.initial :=
  c10_applyMove_out_of_bounds GameState.initial { } (Or.inl (by decide))

/-! ## Structure of generated moves -/

theorem dirsFor_ne_zero {t : TileType} {d : Int × Int} (hd : d ∈ dirsFor t) :
    ¬(d.1 = 0 ∧ d.2 = 0) := by
  cases t <;> simp [dirsFor, orthoDirs, diagDirs, all8Dirs] at hd <;>
    rcases hd with rfl | rfl | rfl | rfl | rfl | rfl | rfl | rfl <;> simp

theorem slide_eq (b : Board) (p : Player) (ddx ddy : Int) :
    ∀ (fuel : Nat) (jx jy : Int), ∃ n : Nat,
      slide b p ddx ddy fuel jx jy = (jx + n * ddx, jy + n * ddy) := by
  intro fuel
  induction fuel with
  | zero => intro jx jy; exact ⟨0, by simp [slide]⟩
  | succ f ih =>
    intro jx jy
    unfold slide
    split
    · obtain ⟨n, hn⟩ := ih (jx + ddx) (jy + ddy)
      refine ⟨n + 1, ?_⟩
      rw [hn, Prod.mk.injEq]
      constructor <;> push_cast <;> ring
    · exact ⟨0, by simp⟩

/-- Every produced base move: origin in bounds with the mover's piece,
destination in bounds and empty, origin distinct from destination, and
the placement fields at their defaults. -/
theorem baseMoveInDir_spec {b : Board} {p : Player} {x y : Int} {d : Int × Int}
    {m : Move} (hd : ¬(d.1 = 0 ∧ d.2 = 0))
    (h : baseMoveInDir b p x y d = some m) :
    m.sx = x ∧ m.sy = y ∧
    inBounds m.dx m.dy = true ∧ (b.at m.dx m.dy).occupant = .none ∧
    ¬(m.sx = m.dx ∧ m.sy = m.dy) ∧
    m.placeTile = false ∧ m.tx = -1 ∧ m.ty = -1 ∧ m.tile = .none := by
  unfold baseMoveInDir at h
  split at h
  · exact absurd h (by simp)
  · split at h
    · exact absurd h (by simp)
    · rename_i hin hblock
      split at h
      · rename_i hempty
        cases h
        refine ⟨rfl, rfl, ?_, hempty, ?_, rfl, rfl, rfl, rfl⟩
        · simp only [Decidable.not_not] at hin
          exact hin
        · rintro ⟨hx, hy⟩
          dsimp only at hx hy
          exact hd ⟨by omega, by omega⟩
      · split at h
        · rename_i hj
          cases h
          obtain ⟨n, hn⟩ := slide_eq b p d.1 d.2 8 (x + d.1) (y + d.2)
          refine ⟨rfl, rfl, hj.1, hj.2, ?_, rfl, rfl, rfl, rfl⟩
          rintro ⟨hx, hy⟩
          dsimp only [jumpTarget] at hx hy
          rw [hn] at hx hy
          dsimp only at hx hy
          have h1 : ((n : Int) + 1) * d.1 = 0 := by linarith
          have h2 : ((n : Int) + 1) * d.2 = 0 := by linarith
          have hne : ((n : Int) + 1) ≠ 0 := by positivity
          exact hd ⟨by
            rcases mul_eq_zero.mp h1 with h | h
            · exact absurd h hne
            · exact h, by
            rcases mul_eq_zero.mp h2 with h | h
            · exact absurd h hne
            · exact h⟩
        · exact absurd h (by simp)

/-- Structure of membership in the base-move list. -/
theorem baseMovesU_spec {s : GameState} {m : Move} (hm : m ∈ baseMovesU s) :
    inBounds m.sx m.sy = true ∧ inBounds m.dx m.dy = true ∧
    (s.board.at m.sx m.sy).occupant = s.toMove ∧
    (s.board.at m.dx m.dy).occupant = .none ∧
    ¬(m.sx = m.dx ∧ m.sy = m.dy) ∧
    m.placeTile = false ∧ m.tx = -1 ∧ m.ty = -1 ∧ m.tile = .none := by
  unfold baseMovesU at hm
  simp only [List.mem_flatMap, List.mem_range] at hm
  obtain ⟨y, hy, x, hx, hmem⟩ := hm
  split at hmem
  · rename_i hocc
    rw [List.mem_filterMap] at hmem
    obtain ⟨d, hd, heq⟩ := hmem
    obtain ⟨h1, h2, h3, h4, h5, h6, h7, h8, h9⟩ :=
      baseMoveInDir_spec (dirsFor_ne_zero hd) heq
    refine ⟨?_, h3, ?_, h4, h5, h6, h7, h8, h9⟩
    · rw [h1, h2, inBounds_iff]
      refine ⟨by positivity, by exact_mod_cast hx, by positivity, by exact_mod_cast hy⟩
    · rw [h1, h2]; exact hocc
  · simp at hmem

theorem mem_legalMoves_mem_U {s : GameState} {m : Move} (hm : m ∈ legalMoves s) :
    m ∈ legalMovesU s :=
  List.mem_of_mem_take hm

/-- Decomposition of the unbounded legal-move sequence: every entry is a
base move or a tile variant of a base move. -/
theorem mem_legalMovesU_cases {s : GameState} {m : Move} (hm : m ∈ legalMovesU s) :
    ∃ b ∈ baseMovesU s, m = b ∨
      (∃ t, m ∈ tileVariants s.board b t) := by
  unfold legalMovesU at hm
  rw [List.mem_flatMap] at hm
  obtain ⟨b, hb, hmem⟩ := hm
  refine ⟨b, List.mem_of_mem_take hb, ?_⟩
  rcases List.mem_cons.mp hmem with rfl | hmem
  · exact Or.inl rfl
  · rcases List.mem_append.mp hmem with hmem | hmem
    · split at hmem
      · exact Or.inr ⟨.black, hmem⟩
      · simp at hmem
    · split at hmem
      · exact Or.inr ⟨.gray, hmem⟩
      · simp at hmem

/-- A tile variant shares its four movement coordinates with its base. -/
theorem mem_tileVariants_spec {brd : Board} {base m : Move} {t : TileType}
    (hm : m ∈ tileVariants brd base t) :
    m.sx = base.sx ∧ m.sy = base.sy ∧ m.dx = base.dx ∧ m.dy = base.dy ∧
    m.placeTile = true ∧ m.tile = t ∧
    inBounds m.tx m.ty = true ∧ placementOK brd base m.tx m.ty = true := by
  unfold tileVariants at hm
  simp only [List.mem_flatMap, List.mem_range] at hm
  obtain ⟨y, hy, x, hx, hmem⟩ := hm
  split at hmem
  · rename_i hok
    rcases List.mem_singleton.mp hmem with rfl
    refine ⟨rfl, rfl, rfl, rfl, rfl, rfl, ?_, hok⟩
    dsimp only
    rw [inBounds_iff]
    refine ⟨by positivity, by exact_mod_cast hx, by positivity, by exact_mod_cast hy⟩
  · simp at hmem

/-- Any legal move's movement part comes from a base move: origin holds
the mover's piece, both endpoints are in bounds and distinct. -/
theorem legalMoves_move_spec {s : GameState} {m : Move} (hm : m ∈ legalMoves s) :
    inBounds m.sx m.sy = true ∧ inBounds m.dx m.dy = true ∧
    (s.board.at m.sx m.sy).occupant = s.toMove ∧
    ¬(m.sx = m.dx ∧ m.sy = m.dy) := by
  obtain ⟨b, hb, hcase⟩ := mem_legalMovesU_cases (mem_legalMoves_mem_U hm)
  obtain ⟨h1, h2, h3, _, h5, _⟩ := baseMovesU_spec hb
  rcases hcase with rfl | ⟨t, hv⟩
  · exact ⟨h1, h2, h3, h5⟩
  · obtain ⟨e1, e2, e3, e4, _⟩ := mem_tileVariants_spec hv
    rw [e1, e2, e3, e4]
    exact ⟨h1, h2, h3, h5⟩

/-! ## C1: effects of applying a generated legal move -/

theorem decTile_nonneg {inv : TileInventory} (t : TileType)
    (h : 0 ≤ inv.black ∧ 0 ≤ inv.gray) :
    0 ≤ (decTile inv t).black ∧ 0 ≤ (decTile inv t).gray := by
  unfold decTile
  constructor <;> dsimp only <;> split <;> omega

theorem applyMove_board_length (s : GameState) (m : Move) :
    (s.applyMove m).board.cells.length = s.board.cells.length := by
  unfold GameState.applyMove
  split
  · rfl
  · split
    · rfl
    · dsimp only
      split <;> simp [Board.setTile, Board.setOcc, length_setCell]

theorem applyMove_inv_nonneg (s : GameState) (m : Move)
    (h : 0 ≤ s.invB.black ∧ 0 ≤ s.invB.gray ∧ 0 ≤ s.invW.black ∧ 0 ≤ s.invW.gray) :
    0 ≤ (s.applyMove m).invB.black ∧ 0 ≤ (s.applyMove m).invB.gray ∧
    0 ≤ (s.applyMove m).invW.black ∧ 0 ≤ (s.applyMove m).invW.gray := by
  unfold GameState.applyMove
  split
  · exact h
  · split
    · exact h
    · dsimp only
      constructor
      · split
        · exact (decTile_nonneg m.tile ⟨h.1, h.2.1⟩).1
        · exact h.1
      constructor
      · split
        · exact (decTile_nonneg m.tile ⟨h.1, h.2.1⟩).2
        · exact h.2.1
      constructor
      · split
        · exact (decTile_nonneg m.tile ⟨h.2.2.1, h.2.2.2⟩).1
        · exact h.2.2.1
      · split
        · exact (decTile_nonneg m.tile ⟨h.2.2.1, h.2.2.2⟩).2
        · exact h.2.2.2

/-- Applying an in-bounds move with distinct endpoints transfers the
origin occupant to the destination and empties the origin; the guarded
tile placement never touches an occupant. -/
theorem applyMove_occ (s : GameState) (m : Move)
    (hs : inBounds m.sx m.sy = true) (hd : inBounds m.dx m.dy = true)
    (hlen : s.board.cells.length = 25) (hne : ¬(m.sx = m.dx ∧ m.sy = m.dy)) :
    ((s.applyMove m).board.at m.dx m.dy).occupant = (s.board.at m.sx m.sy).occupant ∧
    ((s.applyMove m).board.at m.sx m.sy).occupant = .none := by
  have hne' : ¬(m.dx = m.sx ∧ m.dy = m.sy) := fun ⟨a, b⟩ => hne ⟨a.symm, b.symm⟩
  unfold GameState.applyMove
  rw [if_neg (by simp [hs]), if_neg (by simp [hd])]
  dsimp only
  set b1 := s.board.setOcc m.dx m.dy (s.board.at m.sx m.sy).occupant with hb1
  set b2 := b1.setOcc m.sx m.sy .none with hb2
  have hlen1 : b1.cells.length = 25 := by rw [hb1]; simp [Board.setOcc, length_setCell, hlen]
  have hlen2 : b2.cells.length = 25 := by rw [hb2]; simp [Board.setOcc, length_setCell, hlen1]
  have hocc_d : (b2.at m.dx m.dy).occupant = (s.board.at m.sx m.sy).occupant := by
    rw [hb2]
    unfold Board.setOcc
    rw [at_setCell b1 m.dx m.dy _ hlen1 hs hd, if_neg hne, hb1]
    unfold Board.setOcc
    rw [at_setCell s.board m.dx m.dy _ hlen hd hd, if_pos ⟨rfl, rfl⟩]
  have hocc_s : (b2.at m.sx m.sy).occupant = .none := by
    rw [hb2]
    unfold Board.setOcc
    rw [at_setCell b1 m.sx m.sy _ hlen1 hs hs, if_pos ⟨rfl, rfl⟩]
  split
  · rename_i hplace
    have hb : inBounds m.tx m.ty = true := by
      simp only [Bool.and_eq_true] at hplace
      exact hplace.1.1.2
    constructor
    · rw [occ_setTile b2 m.tile m.dx m.dy hlen2 hb hd]; exact hocc_d
    · rw [occ_setTile b2 m.tile m.sx m.sy hlen2 hb hs]; exact hocc_s
  · exact ⟨hocc_d, hocc_s⟩

/-- Invariants of reachable states: non-negative inventories and a
well-formed 25-cell board. -/
theorem reachable_invariants {s : GameState} (h : Reachable s) :
    (0 ≤ s.invB.black ∧ 0 ≤ s.invB.gray ∧ 0 ≤ s.invW.black ∧ 0 ≤ s.invW.gray) ∧
    s.board.cells.length = 25 := by
  induction h with
  | init => refine ⟨by decide, by decide⟩
  | step _ _ ih =>
    rename_i s' m _ _
    exact ⟨applyMove_inv_nonneg s' m ih.1, by rw [applyMove_board_length]; exact ih.2⟩

/-- C1. For every reachable state `S` and every move `m` in the list
produced by `Rules::legal_moves(S)`, `apply_move(S, m)` yields a state
with both players' black and gray inventories non-negative, destination
cell `(m.dx, m.dy)` occupied by the side that was to move, and origin
cell `(m.sx, m.sy)` empty. -/
theorem c1_applyMove_legal_post (s : GameState) (m : Move)
    (hr : Reachable s) (hm : m ∈ legalMoves s) :
    (0 ≤ (s.applyMove m).invB.black ∧ 0 ≤ (s.applyMove m).invB.gray ∧
     0 ≤ (s.applyMove m).invW.black ∧ 0 ≤ (s.applyMove m).invW.gray) ∧
    ((s.applyMove m).board.at m.dx m.dy).occupant = s.toMove ∧
    ((s.applyMove m).board.at m.sx m.sy).occupant = .none := by
  obtain ⟨hinv, hlen⟩ := reachable_invariants hr
  obtain ⟨h1, h2, h3, h4⟩ := legalMoves_move_spec hm
  obtain ⟨hd, hs⟩ := applyMove_occ s m h1 h2 hlen h4
  exact ⟨applyMove_inv_nonneg s m hinv, by rw [hd]; exact h3, hs⟩

/-- Witness for C1: the initial state is reachable and the opening move
`(0,0) → (0,1)` is generated for it. -/
theorem c1_witness :
    (0 ≤ (GameState.initial.applyMove
        { sx := 0, sy := 0, dx := 0, dy := 1, placeTile := false }).invB.black ∧
     0 ≤ (GameState.initial.applyMove
        { sx := 0, sy := 0, dx := 0, dy := 1, placeTile := false }).invB.gray ∧
     0 ≤ (GameState.initial.applyMove
        { sx := 0, sy := 0, dx := 0, dy := 1, placeTile := false }).invW.black ∧
     0 ≤ (GameState.initial.applyMove
        { sx := 0, sy := 0, dx := 0, dy := 1, placeTile := false }).invW.gray) ∧
    ((GameState.initial.applyMove
        { sx := 0, sy := 0, dx := 0, dy := 1, placeTile := false }).board.at 0 1).occupant =
      GameState.initial.toMove ∧
    ((GameState.initial.applyMove
        { sx := 0, sy := 0, dx := 0, dy := 1, placeTile := false }).board.at 0 0).occupant =
      .none :=
  c1_applyMove_legal_post GameState.initial
    { sx := 0, sy := 0, dx := 0, dy := 1, placeTile := false }
    Reachable.init (by decide)

/-! ## C2: characterization of tile-placement variants -/

theorem flatMap_length_le {α β : Type} (l : List α) (f : α → List β) (k : Nat)
    (h : ∀ a ∈ l, (f a).length ≤ k) : (l.flatMap f).length ≤ l.length * k := by
  induction l with
  | nil => simp
  | cons a l ih =>
    rw [List.flatMap_cons, List.length_append, List.length_cons]
    have h1 := h a (List.mem_cons_self a l)
    have h2 := ih fun a ha => h a (List.mem_cons_of_mem _ ha)
    calc (f a).length + (l.flatMap f).length ≤ k + l.length * k := by omega
    _ = (l.length + 1) * k := by ring

theorem dirsFor_length_le (t : TileType) : (dirsFor t).length ≤ 8 := by
  cases t <;> decide

/-- At most 25·8 = 200 base moves are ever generated, so the capacity of
the intermediate `base_moves` `MoveList` (2048) never binds. -/
theorem baseMovesU_length_le (s : GameState) : (baseMovesU s).length ≤ 200 := by
  unfold baseMovesU
  have houter : ∀ y ∈ List.range 5,
      ((List.range 5).flatMap fun x =>
        let xi : Int := x
        let yi : Int := (y : Nat)
        if (s.board.at xi yi).occupant = s.toMove then
          (dirsFor (s.board.at xi yi).tile).filterMap
            (baseMoveInDir s.board s.toMove xi yi)
        else []).length ≤ 40 := by
    intro y _
    have hinner : ∀ x ∈ List.range 5,
        (let xi : Int := x
         let yi : Int := (y : Nat)
         if (s.board.at xi yi).occupant = s.toMove then
           (dirsFor (s.board.at xi yi).tile).filterMap
             (baseMoveInDir s.board s.toMove xi yi)
         else []).length ≤ 8 := by
      intro x _
      dsimp only
      split
      · exact le_trans (List.length_filterMap_le _ _) (dirsFor_length_le _)
      · simp
    have := flatMap_length_le (List.range 5) _ 8 hinner
    simpa using this
  have := flatMap_length_le (List.range 5) _ 40 houter
  simpa using this

theorem baseMoves_take_eq (s : GameState) :
    (baseMovesU s).take 2048 = baseMovesU s :=
  List.take_of_length_le (le_trans (baseMovesU_length_le s) (by norm_num))

theorem placementOK_iff {brd : Board} {base : Move} {x y : Int} :
    placementOK brd base x y = true ↔
      ((brd.at x y).tile = .none ∧
       ((brd.at x y).occupant = .none ∨ (x = base.sx ∧ y = base.sy)) ∧
       ¬(x = base.dx ∧ y = base.dy)) := by
  unfold placementOK
  simp only [Bool.and_eq_true, Bool.or_eq_true, Bool.not_eq_true',
    decide_eq_true_iff, Bool.and_eq_false_iff, decide_eq_false_iff_not]
  constructor
  · rintro ⟨⟨h1, h2⟩, h3⟩
    exact ⟨h1, h2, by rcases h3 with h | h <;> rintro ⟨rfl, rfl⟩ <;> exact h rfl⟩
  · rintro ⟨h1, h2, h3⟩
    refine ⟨⟨h1, h2⟩, ?_⟩
    by_cases hx : x = base.dx
    · exact Or.inr fun hy => h3 ⟨hx, hy⟩
    · exact Or.inl hx

theorem mem_tileVariants_intro {brd : Board} {base : Move} {t : TileType}
    {x y : Int} (hx : 0 ≤ x) (hx5 : x < 5) (hy : 0 ≤ y) (hy5 : y < 5)
    (hok : placementOK brd base x y = true) :
    { base with placeTile := true, tx := x, ty := y, tile := t } ∈
      tileVariants brd base t := by
  unfold tileVariants
  simp only [List.mem_flatMap, List.mem_range]
  refine ⟨y.toNat, by omega, x.toNat, by omega, ?_⟩
  have hxx : ((x.toNat : Nat) : Int) = x := by omega
  have hyy : ((y.toNat : Nat) : Int) = y := by omega
  rw [hxx, hyy, if_pos hok]
  exact List.mem_singleton.mpr rfl

/-- Two base moves of the same state with the same movement coordinates
are the same move (all other fields sit at their defaults). -/
theorem baseMovesU_coords_ext {s : GameState} {b b' : Move}
    (hb : b ∈ baseMovesU s) (hb' : b' ∈ baseMovesU s)
    (h : b.sx = b'.sx ∧ b.sy = b'.sy ∧ b.dx = b'.dx ∧ b.dy = b'.dy) : b = b' := by
  obtain ⟨_, _, _, _, _, p1, p2, p3, p4⟩ := baseMovesU_spec hb
  obtain ⟨_, _, _, _, _, q1, q2, q3, q4⟩ := baseMovesU_spec hb'
  cases b; cases b'
  simp_all

/-- C2 (amended). Provided the generated move count does not exceed the
`MoveList` capacity, the generator emits the tile-placement variant of a
base move `b` at in-bounds cell `(x, y)` with colour `t` exactly when
the moving side still holds a tile of that colour, the cell is tile-free
and not `b`'s destination, and the cell is empty of pieces or is `b`'s
origin. The capacity proviso is necessary: see `c2_counterexample`. -/
theorem c2_tile_variant_iff (s : GameState) (b : Move) (x y : Int) (t : TileType)
    (hb : b ∈ baseMovesU s) (ht : t = .black ∨ t = .gray)
    (hx : 0 ≤ x) (hx5 : x < 5) (hy : 0 ≤ y) (hy5 : y < 5)
    (hov : (legalMovesU s).length ≤ MAX_MOVES) :
    ({ b with placeTile := true, tx := x, ty := y, tile := t } ∈ legalMoves s) ↔
      ((if t = .black then (s.inventory s.toMove).black > 0
        else (s.inventory s.toMove).gray > 0) ∧
       (s.board.at x y).tile = .none ∧
       ¬(x = b.dx ∧ y = b.dy) ∧
       ((s.board.at x y).occupant = .none ∨ (x = b.sx ∧ y = b.sy))) := by
  have hLM : legalMoves s = legalMovesU s := List.take_of_length_le hov
  rw [hLM]
  constructor
  · intro hm
    obtain ⟨b', hb', hcase⟩ := mem_legalMovesU_cases hm
    rcases hcase with heq | ⟨t', hv⟩
    · exact absurd (congrArg Move.placeTile heq)
        (by simp [(baseMovesU_spec hb').2.2.2.2.2.1])
    · obtain ⟨e1, e2, e3, e4, _, e6, _, hok⟩ := mem_tileVariants_spec hv
      have hbb : b = b' := baseMovesU_coords_ext hb hb' ⟨e1, e2, e3, e4⟩
      have htt : t = t' := e6
      subst hbb htt
      have hok' : placementOK s.board b x y = true := hok
      rw [placementOK_iff] at hok'
      -- recover the inventory guard from which branch the variant sits in
      unfold legalMovesU at hm
      rw [List.mem_flatMap] at hm
      obtain ⟨b2, hb2, hmem2⟩ := hm
      rcases List.mem_cons.mp hmem2 with heq2 | hmem2
      · exact absurd (congrArg Move.placeTile heq2)
          (by simp [(baseMovesU_spec (List.mem_of_mem_take hb2)).2.2.2.2.2.1])
      · rcases List.mem_append.mp hmem2 with hmem2 | hmem2
        · split at hmem2
          · rename_i hgt
            have := (mem_tileVariants_spec hmem2).2.2.2.2.2.1
            rcases ht with rfl | rfl
            · exact ⟨by simpa using hgt, hok'.1, hok'.2.2, hok'.2.1⟩
            · exact absurd this (by simp)
          · simp at hmem2
        · split at hmem2
          · rename_i hgt
            have := (mem_tileVariants_spec hmem2).2.2.2.2.2.1
            rcases ht with rfl | rfl
            · exact absurd this (by simp)
            · exact ⟨by simpa using hgt, hok'.1, hok'.2.2, hok'.2.1⟩
          · simp at hmem2
  · rintro ⟨hinv, h1, h2, h3⟩
    have hok : placementOK s.board b x y = true :=
      placementOK_iff.mpr ⟨h1, h3, h2⟩
    unfold legalMovesU
    rw [List.mem_flatMap]
    refine ⟨b, by rw [baseMoves_take_eq]; exact hb, ?_⟩
    refine List.mem_cons.mpr (Or.inr ?_)
    rcases ht with rfl | rfl
    · refine List.mem_append.mpr (Or.inl ?_)
      rw [if_pos (by simpa using hinv)]
      exact mem_tileVariants_intro hx hx5 hy hy5 hok
    · refine List.mem_append.mpr (Or.inr ?_)
      rw [if_pos (by simpa using hinv)]
      exact mem_tileVariants_intro hx hx5 hy hy5 hok

/-- A state that overflows the 2048-entry `MoveList`: nine gray-tiled
black pieces in the central 3×3 block generate 72 base moves with 31
variants each (2232 pushes), so the last 184 variants are dropped. -/
def overflowState : GameState :=
  { board := ⟨(List.range 25).map fun i =>
      if 1 ≤ i % 5 ∧ i % 5 ≤ 3 ∧ 1 ≤ i / 5 ∧ i / 5 ≤ 3
      then ⟨.black, .gray⟩ else Cell.empty⟩,
    toMove := .black, invB := ⟨1, 1⟩, invW := ⟨0, 0⟩, history := [] }

/-- The last base move generated for `overflowState`: the jump from
`(3,3)` over `(2,2)` and `(1,1)` to `(0,0)`. -/
def droppedBase : Move := { sx := 3, sy := 3, dx := 0, dy := 0, placeTile := false }

/-- C2 counterexample. For `overflowState`, the gray variant of
`droppedBase` at `(4,4)` satisfies every condition of the claim (gray
tile in stock, cell tile-free, not the destination, empty of pieces),
yet `legal_moves` does not emit it: the capacity-limited `MoveList` has
silently dropped it. -/
theorem c2_counterexample :
    droppedBase ∈ baseMovesU overflowState ∧
    (overflowState.inventory overflowState.toMove).gray > 0 ∧
    (overflowState.board.at 4 4).tile = .none ∧
    ¬((4 : Int) = droppedBase.dx ∧ (4 : Int) = droppedBase.dy) ∧
    (overflowState.board.at 4 4).occupant = .none ∧
    { droppedBase with placeTile := true, tx := 4, ty := 4, tile := .gray } ∉
      legalMoves overflowState := by
  set_option maxRecDepth 100000 in decide

/-- Witness for C2's amended theorem: for the initial position, base
move `(0,0) → (0,1)`, cell `(1,1)` and a black tile, both sides of the
characterisation hold. -/
theorem c2_witness :
    ({ sx := 0, sy := 0, dx := 0, dy := 1, placeTile := false } : Move) ∈
      baseMovesU GameState.initial ∧
    (legalMovesU GameState.initial).length ≤ MAX_MOVES ∧
    (({ sx := 0, sy := 0, dx := 0, dy := 1, placeTile := true, tx := 1, ty := 1,
        tile := .black } : Move) ∈ legalMoves GameState.initial ↔
      ((if (TileType.black = TileType.black) then
          (GameState.initial.inventory GameState.initial.toMove).black > 0
        else (GameState.initial.inventory GameState.initial.toMove).gray > 0) ∧
       (GameState.initial.board.at 1 1).tile = .none ∧
       ¬((1 : Int) = (0 : Int) ∧ (1 : Int) = (1 : Int)) ∧
       ((GameState.initial.board.at 1 1).occupant = .none ∨
        ((1 : Int) = (0 : Int) ∧ (1 : Int) = (0 : Int))))) :=
  ⟨by set_option maxRecDepth 100000 in decide!,
   by set_option maxRecDepth 100000 in decide!,
   c2_tile_variant_iff GameState.initial
     { sx := 0, sy := 0, dx := 0, dy := 1, placeTile := false } 1 1 .black
     (by set_option maxRecDepth 100000 in decide!) (Or.inl rfl)
     (by decide) (by decide) (by decide) (by decide)
     (by set_option maxRecDepth 100000 in decide!)⟩

/-! ## Symmetry layer (`symmetry.hpp`) -/

/-- The two symmetries: identity and horizontal flip. -/
inductive Symmetry where
  | identity : Symmetry
  | flipH : Symmetry
deriving DecidableEq, Repr

/-- `SymmetryOps::transform_board`. -/
def transformBoard (b : Board) : Symmetry → Board
  | .identity => b
  | .flipH => ⟨(List.range 25).map fun i =>
      b.at (4 - (i % 5 : Nat)) (i / 5 : Nat)⟩

/-- The base-9 cell hash from `get_canonical_symmetry` (`uint64_t`
arithmetic wraps: 9^25 exceeds 2^64). -/
def boardHash9 (b : Board) : Nat :=
  (List.range 25).foldl
    (fun h i =>
      let c := b.cells.getD i Cell.empty
      (h * 9 + c.occupant.toNat * 3 + c.tile.toNat) % U64)
    0

/-- `SymmetryOps::get_canonical_symmetry`: the flip wins only when its
hash is strictly smaller. -/
def canonicalSym (b : Board) : Symmetry :=
  if boardHash9 (transformBoard b .flipH) < boardHash9 b then .flipH else .identity

/-! ## N-tuple evaluator (`ntuple.cpp`, separate encoding) -/

/-- The sixteen base patterns from `NTupleNetwork::init_tuples`
(cell indices linearised as `y*5+x`). -/
def basePatterns : List (List Nat) :=
  [ [0, 1, 2, 3, 4, 5, 6, 7, 8, 9],
    [5, 6, 7, 8, 9, 10, 11, 12, 13, 14],
    [10, 11, 12, 13, 14, 15, 16, 17, 18, 19],
    [15, 16, 17, 18, 19, 20, 21, 22, 23, 24],
    [0, 5, 10, 15, 20, 1, 6, 11, 16, 21],
    [1, 6, 11, 16, 21, 2, 7, 12, 17, 22],
    [2, 7, 12, 17, 22, 3, 8, 13, 18, 23],
    [0, 1, 2, 5, 6, 7, 10, 11, 12],
    [1, 2, 3, 6, 7, 8, 11, 12, 13],
    [5, 6, 7, 10, 11, 12, 15, 16, 17],
    [6, 7, 8, 11, 12, 13, 16, 17, 18],
    [10, 11, 12, 15, 16, 17, 20, 21, 22],
    [11, 12, 13, 16, 17, 18, 21, 22, 23],
    [0, 1, 2, 3, 4, 5, 10, 15, 20],
    [0, 1, 2, 3, 4, 6, 11, 16, 21],
    [0, 1, 2, 3, 4, 7, 12, 17, 22] ]

/-- `NTuple::encode_cell_piece`: 0 empty, 1 mine, 2 opponent. -/
def encodeCellPiece (c : Cell) (current : Player) : Nat :=
  if c.occupant = .none then 0
  else if c.occupant = current then 1 else 2

/-- `NTuple::encode_cell_tile`: the raw tile value 0/1/2. -/
def encodeCellTile (c : Cell) : Nat := c.tile.toNat

/-- `NTuple::to_index` at offset `(0,0)` over the piece field (base 3;
out-of-bounds cells contribute the empty digit, although every pattern
cell index lies in `0..24`). -/
def toIndexPiece (b : Board) (pat : List Nat) (current : Player) : Nat :=
  pat.foldl
    (fun idx ci =>
      if inBounds (ci % 5 : Nat) (ci / 5 : Nat) then
        idx * 3 + encodeCellPiece (b.at (ci % 5 : Nat) (ci / 5 : Nat)) current
      else idx * 3)
    0

/-- The tile-field index computation inlined in `evaluate`. -/
def toIndexTile (b : Board) (pat : List Nat) : Nat :=
  pat.foldl
    (fun idx ci =>
      if inBounds (ci % 5 : Nat) (ci / 5 : Nat) then
        idx * 3 + encodeCellTile (b.at (ci % 5 : Nat) (ci / 5 : Nat))
      else idx * 3)
    0

/-- `NTupleNetwork::hand_index`. -/
def handIndex (blackRemain grayRemain : Int) : Int :=
  min blackRemain 3 * 2 + min grayRemain 1

/-- The weight tables of an `NTupleNetwork` (separate encoding): one
table per piece pattern, one per tile pattern, and the hand table.
The C++ stores `float` vectors; weights are modelled as exact values in
a commutative ring, indexed totally (every access in `evaluate` is in
range). Instantiating with integer weights below keeps every verified
scenario inside the range where IEEE float arithmetic is exact. -/
structure NetWeights (R : Type) where
  pieceW : Nat → Nat → R
  tileW : Nat → Nat → R
  handW : Int → R

/-- `NTupleNetwork::evaluate`: canonicalise the board, sum the piece
pattern weights (side-to-move viewpoint), tile pattern weights and the
hand weight, then negate for White. -/
def evaluate {R : Type} [CommRing R] (w : NetWeights R) (s : GameState) : R :=
  let cb := transformBoard s.board (canonicalSym s.board)
  let p := s.toMove
  let pieceSum := (basePatterns.enum).foldl
    (fun acc ip => acc + w.pieceW ip.1 (toIndexPiece cb ip.2 p)) 0
  let tileSum := (basePatterns.enum).foldl
    (fun acc ip => acc + w.tileW ip.1 (toIndexTile cb ip.2)) 0
  let inv := s.inventory p
  let v := pieceSum + tileSum + w.handW (handIndex inv.black inv.gray)
  if p = .white then -v else v

/-- The state transform described by the claim: swap occupants
Black↔White, swap tiles Black↔Gray, swap the two inventories, and flip
the side to move. -/
def flipPlayerColor : Player → Player
  | .none => .none
  | .black => .white
  | .white => .black

def flipTileColor : TileType → TileType
  | .none => .none
  | .black => .gray
  | .gray => .black

def flipState (s : GameState) : GameState :=
  { board := ⟨s.board.cells.map fun c => ⟨flipPlayerColor c.occupant, flipTileColor c.tile⟩⟩,
    toMove := flipPlayerColor s.toMove,
    invB := s.invW, invW := s.invB, history := s.history }

/-- The network in which every weight equals `c` — the state of a
freshly constructed `NTupleNetwork` (all tables are filled with the same
initial value). -/
def uniformNet {R : Type} (c : R) : NetWeights R :=
  ⟨fun _ _ => c, fun _ _ => c, fun _ => c⟩

/-- C5 (amended). For the freshly constructed network (all weights
equal) the sign-flip symmetry holds: for every state whose side to move
is Black or White, `evaluate(S)` is the negation of `evaluate` on the
colour-swapped state. For general learned weights the identity fails,
because the tile-pattern features are indexed by raw tile colours and
the swap permutes those indices: see `c5_counterexample`. -/
theorem c5_uniform_sign_flip {R : Type} [CommRing R] (c : R) (s : GameState)
    (h : s.toMove = .black ∨ s.toMove = .white) :
    evaluate (uniformNet c) s = -(evaluate (uniformNet c) (flipState s)) := by
  have huniform : ∀ s' : GameState,
      evaluate (uniformNet c) s' = if s'.toMove = .white then -(33 * c) else 33 * c := by
    intro s'
    unfold evaluate uniformNet
    dsimp only [basePatterns, List.enum]
    norm_num [List.enumFrom, List.foldl]
    split <;> ring
  rw [huniform s, huniform (flipState s)]
  rcases h with h | h <;> rw [h] <;> simp [flipState, flipPlayerColor, h]

/-- Witness for C5's amended theorem at `c = 1 : Int` on the initial state. -/
theorem c5_witness :
    evaluate (uniformNet (1 : Int)) GameState.initial =
      -(evaluate (uniformNet (1 : Int)) (flipState GameState.initial)) :=
  c5_uniform_sign_flip 1 GameState.initial (Or.inl (by decide))

/-- Weights witnessing the failure of the claim: zero piece and hand
weights, and tile-pattern weight equal to the feature index (all values
below 2^24, hence exactly representable as floats with exact sums). -/
def c5Weights : NetWeights Int :=
  ⟨fun _ _ => 0, fun _ idx => (idx : Int), fun _ => 0⟩

/-- A state with a single gray tile on the centre cell `(2,2)` (board
symmetric, so canonicalisation picks the identity for it and for its
colour-swap). -/
def c5State : GameState :=
  { board := ⟨(List.range 25).map fun i =>
      if i = 12 then ⟨.none, .gray⟩ else Cell.empty⟩,
    toMove := .black, invB := ⟨0, 0⟩, invW := ⟨0, 0⟩, history := [] }

/-- C5 counterexample. With the tile tables above, the claimed identity
`evaluate(S) = -evaluate(flip S)` fails at `c5State`: swapping the gray
centre tile to black changes the tile feature indices. -/
theorem c5_counterexample :
    evaluate c5Weights c5State ≠ -(evaluate c5Weights (flipState c5State)) := by
  set_option maxRecDepth 10000 in decide

/-! ## Alpha-beta engine (`alphabeta.cpp`)

Scores are IEEE floats in the C++; only negation, comparison and `max`
are applied to them, plus the sums inside `evaluate`. They are modelled
over a linear ordered commutative ring extended with the two infinities
the code passes as initial bounds (`XVal`). With integer weights every
verified scenario stays below 2^24, where float arithmetic is exact.
`std::sort` in `order_moves` is unspecified for equal keys; it is
modelled as a stable descending insertion sort, which is the unique
descending order whenever the keys are distinct. The statistics
counters (`nodes_searched`, `tt_hits`, …) feed nothing back into the
search and are not modelled. -/

/-- A float value extended with the infinities used as search bounds. -/
inductive XVal (R : Type) where
  | negInf : XVal R
  | fin : R → XVal R
  | posInf : XVal R
deriving DecidableEq, Repr

/-- IEEE `≤` on the modelled values (no NaNs arise in the search). -/
def XVal.ble {R : Type} [LinearOrder R] : XVal R → XVal R → Bool
  | .negInf, _ => true
  | .fin _, .negInf => false
  | .posInf, .negInf => false
  | .fin a, .fin b => decide (a ≤ b)
  | .posInf, .fin _ => false
  | .fin _, .posInf => true
  | .posInf, .posInf => true

/-- IEEE `<`. -/
def XVal.blt {R : Type} [LinearOrder R] (a b : XVal R) : Bool :=
  !(XVal.ble b a)

/-- Negation. -/
def XVal.neg {R : Type} [Neg R] : XVal R → XVal R
  | .negInf => .posInf
  | .posInf => .negInf
  | .fin q => .fin (-q)

/-- `std::max(a, b)`: returns `b` exactly when `a < b`. -/
def XVal.maxv {R : Type} [LinearOrder R] (a b : XVal R) : XVal R :=
  if XVal.blt a b then b else a

/-- Transposition-table flags (`TranspositionEntry::Flag`). -/
inductive TTFlag where
  | exact : TTFlag
  | lowerBound : TTFlag
  | upperBound : TTFlag
deriving DecidableEq, Repr

/-- A transposition-table entry. -/
structure TTEntry (R : Type) where
  hash : Nat
  value : XVal R
  depth : Nat
  flag : TTFlag
  best : Move
deriving DecidableEq

/-- The transposition table (`std::unordered_map<uint64_t, entry>`),
modelled as an association list with replace-on-store. -/
abbrev TTMap (R : Type) := List (Nat × TTEntry R)

/-- Map lookup. -/
def ttFind? {R : Type} : TTMap R → Nat → Option (TTEntry R)
  | [], _ => Option.none
  | e :: rest, h => if e.1 = h then some e.2 else ttFind? rest h

/-- `tt_[hash] = entry` (replace or insert). -/
def ttStore {R : Type} : TTMap R → Nat → TTEntry R → TTMap R
  | [], h, e => [(h, e)]
  | x :: rest, h, e => if x.1 = h then (h, e) :: rest else x :: ttStore rest h e

/-- `AlphaBeta::compute_hash`: XOR of occupant codes shifted by the cell
index, tile codes shifted by 25 + index, and the side to move shifted
by 50. All shifts stay below bit 52, so no 64-bit wrap occurs. -/
def abHash (s : GameState) : Nat :=
  let boardPart := (List.range 5).foldl
    (fun acc y => (List.range 5).foldl
      (fun acc x =>
        (acc ^^^ ((s.board.at (x : Nat) (y : Nat)).occupant.toNat <<< (y * 5 + x))) ^^^
          ((s.board.at (x : Nat) (y : Nat)).tile.toNat <<< (25 + y * 5 + x)))
      acc)
    0
  boardPart ^^^ (s.toMove.toNat <<< 50)

/-- `AlphaBeta::is_terminal` with its value out-parameter. -/
def isTerminalAB {R : Type} [LinearOrderedCommRing R] (s : GameState) : Option R :=
  if (legalMoves s).isEmpty then some (-10000)
  else if isWin s .black then
    some (if s.toMove = .black then 10000 else -10000)
  else if isWin s .white then
    some (if s.toMove = .white then 10000 else -10000)
  else Option.none

/-- Engine configuration: the network and the two feature switches. -/
structure ABConfig (R : Type) where
  w : NetWeights R
  useTT : Bool
  useOrdering : Bool

/-- Stable descending insertion: insert after existing equal keys. -/
def insertDesc {R : Type} [LinearOrder R] (m : R × Move) :
    List (R × Move) → List (R × Move)
  | [] => [m]
  | x :: xs => if x.1 < m.1 then m :: x :: xs else x :: insertDesc m xs

/-- Stable descending insertion sort (left fold, so elements with equal
keys keep their relative order). -/
def sortDesc {R : Type} [LinearOrder R] (l : List (R × Move)) : List (R × Move) :=
  l.foldl (fun acc x => insertDesc x acc) []

/-- `AlphaBeta::order_moves`: score each move by the one-ply negamax
value `-evaluate(child)` and sort descending. -/
def orderMoves {R : Type} [LinearOrderedCommRing R] (cfg : ABConfig R)
    (s : GameState) (moves : List Move) : List Move :=
  if !cfg.useOrdering || moves.length ≤ 1 then moves
  else
    (sortDesc (moves.map fun m => (-(evaluate cfg.w (s.applyMove m)), m))).map
      Prod.snd

/-- `AlphaBeta::probe_tt`: usable only when the stored depth suffices
and the flag admits the value under the current window. (On a failed
probe the C++ copies the entry's best move into a local that the caller
then discards, so it is not modelled.) -/
def probeTT {R : Type} [LinearOrderedCommRing R] (useTT : Bool) (tt : TTMap R)
    (h : Nat) (depth : Nat) (alpha beta : XVal R) : Option (XVal R × Move) :=
  if !useTT then Option.none
  else
    match ttFind? tt h with
    | Option.none => Option.none
    | some e =>
      if e.depth ≥ depth then
        if e.flag = .exact then some (e.value, e.best)
        else if e.flag = .lowerBound ∧ XVal.ble beta e.value then some (e.value, e.best)
        else if e.flag = .upperBound ∧ XVal.ble e.value alpha then some (e.value, e.best)
        else Option.none
      else Option.none

/-- The running state of the move loop in `alphabeta`. -/
structure ABState (R : Type) where
  best : XVal R
  bestMove : Move
  alpha : XVal R
  tt : TTMap R
  cut : Bool

/-- One iteration of the move loop: recurse with the negated window,
negate the returned value, track the best value and move, raise alpha,
and record a β-cut. -/
def abStep {R : Type} [LinearOrderedCommRing R]
    (go : GameState → XVal R → XVal R → TTMap R → XVal R × Move × TTMap R)
    (s : GameState) (beta : XVal R) (m : Move) (st : ABState R) : ABState R :=
  let r := go (s.applyMove m) (XVal.neg beta) (XVal.neg st.alpha) st.tt
  let value := XVal.neg r.1
  let st1 : ABState R :=
    if XVal.blt st.best value then
      { st with best := value, bestMove := m, tt := r.2.2 }
    else { st with tt := r.2.2 }
  let st2 : ABState R := { st1 with alpha := XVal.maxv st1.alpha value }
  if XVal.ble beta st2.alpha then { st2 with cut := true } else st2

/-- The move loop (`for (const auto& move : moves) { … if (alpha >= beta) break; }`). -/
def abFold {R : Type} [LinearOrderedCommRing R]
    (go : GameState → XVal R → XVal R → TTMap R → XVal R × Move × TTMap R)
    (s : GameState) (beta : XVal R) :
    List Move → ABState R → ABState R
  | [], st => st
  | m :: rest, st =>
    if st.cut then st
    else abFold go s beta rest (abStep go s beta m st)

/-- `AlphaBeta::alphabeta` (negamax): terminal check, depth check,
TT probe, move generation and ordering, the α-β loop, and the final
store whose flag compares the best value against the *updated* alpha. -/
def alphabeta {R : Type} [LinearOrderedCommRing R] (cfg : ABConfig R) :
    (depth : Nat) → GameState → XVal R → XVal R → TTMap R → XVal R × Move × TTMap R
  | 0 => fun s _ _ tt =>
    match isTerminalAB (R := R) s with
    | some v => (XVal.fin v, {}, tt)
    | Option.none => (XVal.fin (evaluate cfg.w s), {}, tt)
  | d + 1 => fun s alpha beta tt =>
    match isTerminalAB (R := R) s with
    | some v => (XVal.fin v, {}, tt)
    | Option.none =>
      let h := abHash s
      match probeTT cfg.useTT tt h (d + 1) alpha beta with
      | some r => (r.1, r.2, tt)
      | Option.none =>
        let moves := legalMoves s
        if moves.isEmpty then (XVal.fin (-10000), {}, tt)
        else
          let moves := orderMoves cfg s moves
          let st := abFold (alphabeta cfg d) s beta moves
            ⟨.negInf, moves.headD {}, alpha, tt, false⟩
          let flag : TTFlag :=
            if XVal.ble st.best st.alpha then .upperBound
            else if XVal.ble beta st.best then .lowerBound
            else .exact
          let tt' := if cfg.useTT then
              ttStore st.tt h ⟨h, st.best, d + 1, flag, st.bestMove⟩
            else st.tt
          (st.best, st.bestMove, tt')

/-- `AlphaBeta::iterative_deepening` as run by `search` on a fresh
engine: depths 1..max in order over one shared transposition table
(never cleared between depths); the principal value is the value
returned by the deepest completed depth. -/
def searchValue {R : Type} [LinearOrderedCommRing R] (cfg : ABConfig R)
    (s : GameState) (maxDepth : Nat) : XVal R :=
  ((List.range maxDepth).foldl
    (fun acc i =>
      let r := alphabeta cfg (i + 1) s .negInf .posInf acc.2
      (r.1, r.2.2))
    ((XVal.fin 0, []) : XVal R × TTMap R)).1

/-! ## Order lemmas for the extended value domain -/

theorem ble_refl {R : Type} [LinearOrder R] (a : XVal R) : XVal.ble a a = true := by
  cases a <;> simp [XVal.ble]

theorem ble_total {R : Type} [LinearOrder R] (a b : XVal R) :
    XVal.ble a b = true ∨ XVal.ble b a = true := by
  cases a <;> cases b <;> simp [XVal.ble] <;> exact le_total _ _

theorem ble_trans {R : Type} [LinearOrder R] {a b c : XVal R}
    (h1 : XVal.ble a b = true) (h2 : XVal.ble b c = true) :
    XVal.ble a c = true := by
  cases a <;> cases b <;> cases c <;> simp_all [XVal.ble] <;> exact le_trans h1 h2

theorem ble_maxv_left {R : Type} [LinearOrder R] (a b : XVal R) :
    XVal.ble a (XVal.maxv a b) = true := by
  unfold XVal.maxv XVal.blt
  split
  · rename_i h
    simp only [Bool.not_eq_true'] at h
    rcases ble_total a b with hab | hba
    · exact hab
    · rw [h] at hba; cases hba
  · exact ble_refl a

theorem ble_maxv_right {R : Type} [LinearOrder R] (a b : XVal R) :
    XVal.ble b (XVal.maxv a b) = true := by
  unfold XVal.maxv XVal.blt
  split
  · exact ble_refl b
  · rename_i h
    simp only [Bool.not_eq_true, Bool.not_eq_true'] at h
    simpa using h

theorem ble_negInf_left {R : Type} [LinearOrder R] (a : XVal R) :
    XVal.ble XVal.negInf a = true := rfl

theorem fin_ble_negInf {R : Type} [LinearOrder R] (q : R) :
    XVal.ble (XVal.fin q) XVal.negInf = false := rfl

/-! ## Transposition-table invariants -/

/-- Invariant of every table the engine ever produces: all entries carry
flag `Upper` and a finite value. -/
abbrev TTInv {R : Type} (tt : TTMap R) : Prop :=
  ∀ e ∈ tt, e.2.flag = TTFlag.upperBound ∧ ∃ q, e.2.value = XVal.fin q

theorem ttInv_nil {R : Type} : TTInv ([] : TTMap R) := by
  intro e he; cases he

theorem ttFind?_mem {R : Type} :
    ∀ {tt : TTMap R} {h : Nat} {e : TTEntry R}, ttFind? tt h = some e → (h, e) ∈ tt := by
  intro tt
  induction tt with
  | nil => intro h e he; cases he
  | cons x rest ih =>
    intro h e he
    unfold ttFind? at he
    split at he
    · rename_i hx
      cases he
      rw [← hx]
      exact List.mem_cons_self x rest
    · exact List.mem_cons_of_mem x (ih he)

theorem mem_ttStore {R : Type} :
    ∀ {tt : TTMap R} {h : Nat} {v : TTEntry R} {e : Nat × TTEntry R},
      e ∈ ttStore tt h v → e = (h, v) ∨ e ∈ tt := by
  intro tt
  induction tt with
  | nil =>
    intro h v e he
    unfold ttStore at he
    rcases List.mem_singleton.mp he with rfl
    exact Or.inl rfl
  | cons x rest ih =>
    intro h v e he
    unfold ttStore at he
    split at he
    · rcases List.mem_cons.mp he with rfl | he
      · exact Or.inl rfl
      · exact Or.inr (List.mem_cons_of_mem x he)
    · rcases List.mem_cons.mp he with rfl | he
      · exact Or.inr (List.mem_cons_self _ rest)
      · rcases ih he with h' | h'
        · exact Or.inl h'
        · exact Or.inr (List.mem_cons_of_mem x h')

/-- With only `Upper`-flagged finite entries and `alpha = -∞`, no probe
can succeed: `Exact` and `Lower` are absent and the `Upper` cutoff needs
`value ≤ -∞`. -/
theorem probeTT_miss {R : Type} [LinearOrderedCommRing R] {tt : TTMap R}
    (hinv : TTInv tt) (h depth : Nat) (beta : XVal R) :
    probeTT true tt h depth XVal.negInf beta = Option.none := by
  unfold probeTT
  split
  · rename_i hcond
    simp at hcond
  · split
    · rfl
    · rename_i e' heq
      obtain ⟨hflag, q, hval⟩ := hinv (h, e') (ttFind?_mem heq)
      simp only at hflag hval
      split
      · rw [if_neg (by simp [hflag]), if_neg (by simp [hflag]),
          if_neg (by rw [hval]; simp [fin_ble_negInf])]
      · rfl

/-! ## The move loop preserves the invariants -/

theorem abStep_ble {R : Type} [LinearOrderedCommRing R]
    (go : GameState → XVal R → XVal R → TTMap R → XVal R × Move × TTMap R)
    (s : GameState) (beta : XVal R) (m : Move) (st : ABState R)
    (h : XVal.ble st.best st.alpha = true) :
    XVal.ble (abStep go s beta m st).best (abStep go s beta m st).alpha = true := by
  unfold abStep
  dsimp only
  by_cases hlt : XVal.blt st.best
      (XVal.neg (go (s.applyMove m) (XVal.neg beta) (XVal.neg st.alpha) st.tt).1) = true
  · rw [if_pos hlt]
    split
    · exact ble_maxv_right _ _
    · exact ble_maxv_right _ _
  · rw [if_neg hlt]
    split
    · exact ble_trans h (ble_maxv_left _ _)
    · exact ble_trans h (ble_maxv_left _ _)

theorem abStep_inv {R : Type} [LinearOrderedCommRing R]
    (go : GameState → XVal R → XVal R → TTMap R → XVal R × Move × TTMap R)
    (hgo : ∀ s' a b tt, TTInv tt →
      (∃ q, (go s' a b tt).1 = XVal.fin q) ∧ TTInv (go s' a b tt).2.2)
    (s : GameState) (beta : XVal R) (m : Move) (st : ABState R)
    (htt : TTInv st.tt) :
    TTInv (abStep go s beta m st).tt := by
  have hinv' := (hgo (s.applyMove m) (XVal.neg beta) (XVal.neg st.alpha) st.tt htt).2
  unfold abStep
  dsimp only
  split <;> split <;> exact hinv'

theorem abStep_fin {R : Type} [LinearOrderedCommRing R]
    (go : GameState → XVal R → XVal R → TTMap R → XVal R × Move × TTMap R)
    (hgo : ∀ s' a b tt, TTInv tt →
      (∃ q, (go s' a b tt).1 = XVal.fin q) ∧ TTInv (go s' a b tt).2.2)
    (s : GameState) (beta : XVal R) (m : Move) (st : ABState R)
    (htt : TTInv st.tt)
    (h : (∃ q, st.best = XVal.fin q) ∨ st.best = XVal.negInf) :
    ∃ q, (abStep go s beta m st).best = XVal.fin q := by
  obtain ⟨q, hq⟩ := (hgo (s.applyMove m) (XVal.neg beta) (XVal.neg st.alpha) st.tt htt).1
  unfold abStep
  dsimp only
  split
  · rename_i hlt
    split
    · exact ⟨-q, by rw [hq]; rfl⟩
    · exact ⟨-q, by rw [hq]; rfl⟩
  · rename_i hlt
    rcases h with ⟨p, hp⟩ | hneg
    · split <;> exact ⟨p, hp⟩
    · exfalso
      rw [hneg, hq] at hlt
      exact hlt rfl
  

theorem abFold_ble {R : Type} [LinearOrderedCommRing R]
    (go : GameState → XVal R → XVal R → TTMap R → XVal R × Move × TTMap R)
    (s : GameState) (beta : XVal R) :
    ∀ (moves : List Move) (st : ABState R),
      XVal.ble st.best st.alpha = true →
      XVal.ble (abFold go s beta moves st).best (abFold go s beta moves st).alpha = true := by
  intro moves
  induction moves with
  | nil => intro st h; exact h
  | cons m rest ih =>
    intro st h
    unfold abFold
    split
    · exact h
    · exact ih _ (abStep_ble go s beta m st h)

theorem abFold_inv {R : Type} [LinearOrderedCommRing R]
    (go : GameState → XVal R → XVal R → TTMap R → XVal R × Move × TTMap R)
    (hgo : ∀ s' a b tt, TTInv tt →
      (∃ q, (go s' a b tt).1 = XVal.fin q) ∧ TTInv (go s' a b tt).2.2)
    (s : GameState) (beta : XVal R) :
    ∀ (moves : List Move) (st : ABState R), TTInv st.tt →
      TTInv (abFold go s beta moves st).tt ∧
      ((∃ q, st.best = XVal.fin q) → ∃ q, (abFold go s beta moves st).best = XVal.fin q) := by
  intro moves
  induction moves with
  | nil => intro st h; exact ⟨h, id⟩
  | cons m rest ih =>
    intro st h
    unfold abFold
    split
    · exact ⟨h, id⟩
    · have hinv' := abStep_inv go hgo s beta m st h
      refine ⟨(ih _ hinv').1, fun hf => (ih _ hinv').2 ?_⟩
      exact abStep_fin go hgo s beta m st h (Or.inl hf)

theorem abFold_first_fin {R : Type} [LinearOrderedCommRing R]
    (go : GameState → XVal R → XVal R → TTMap R → XVal R × Move × TTMap R)
    (hgo : ∀ s' a b tt, TTInv tt →
      (∃ q, (go s' a b tt).1 = XVal.fin q) ∧ TTInv (go s' a b tt).2.2)
    (s : GameState) (beta : XVal R) (m : Move) (rest : List Move)
    (st : ABState R) (htt : TTInv st.tt) (hcut : st.cut = false)
    (hbest : st.best = XVal.negInf) :
    ∃ q, (abFold go s beta (m :: rest) st).best = XVal.fin q := by
  unfold abFold
  rw [hcut]
  simp only [Bool.false_eq_true, if_false]
  exact (abFold_inv go hgo s beta rest _ (abStep_inv go hgo s beta m st htt)).2
    (abStep_fin go hgo s beta m st htt (Or.inr hbest))

theorem orderMoves_ne_nil {R : Type} [LinearOrderedCommRing R]
    (cfg : ABConfig R) (s : GameState) {moves : List Move} (h : moves ≠ []) :
    orderMoves cfg s moves ≠ [] := by
  unfold orderMoves
  split
  · exact h
  · intro hnil
    have hlen : ∀ (l acc : List (R × Move)),
        (l.foldl (fun acc x => insertDesc x acc) acc).length = acc.length + l.length := by
      intro l
      induction l with
      | nil => intro acc; simp
      | cons x xs ih =>
        intro acc
        rw [List.foldl_cons, ih]
        have hins : ∀ (a : List (R × Move)) (y : R × Move),
            (insertDesc y a).length = a.length + 1 := by
          intro a y
          induction a with
          | nil => rfl
          | cons z zs ihz =>
            unfold insertDesc
            split
            · simp
            · simp [ihz]
        rw [hins]
        simp only [List.length_cons]
        omega
    have hc := congrArg List.length hnil
    rw [List.length_map] at hc
    unfold sortDesc at hc
    rw [hlen, List.length_map] at hc
    simp at hc
    exact h hc

/-- A successful probe returns a value stored in the table, hence a
finite one under the invariant. -/
theorem probeTT_some_fin {R : Type} [LinearOrderedCommRing R] {useTT : Bool}
    {tt : TTMap R} {h depth : Nat} {alpha beta : XVal R} {r : XVal R × Move}
    (hp : probeTT useTT tt h depth alpha beta = some r) (hinv : TTInv tt) :
    ∃ q, r.1 = XVal.fin q := by
  unfold probeTT at hp
  split at hp
  · cases hp
  · split at hp
    · cases hp
    · rename_i e heq
      obtain ⟨hflag, q, hval⟩ := hinv (h, e) (ttFind?_mem heq)
      simp only at hflag hval
      split at hp
      · split at hp
        · cases hp; exact ⟨q, hval⟩
        · split at hp
          · cases hp; exact ⟨q, hval⟩
          · split at hp
            · cases hp; exact ⟨q, hval⟩
            · cases hp
      · cases hp

/-- Every run of `alphabeta` returns a finite value, and a table whose
entries all carry flag `Upper` with finite values provided the input
table does. -/
theorem alphabeta_inv {R : Type} [LinearOrderedCommRing R] (cfg : ABConfig R) :
    ∀ (depth : Nat) (s : GameState) (alpha beta : XVal R) (tt : TTMap R),
      TTInv tt →
      (∃ q, (alphabeta cfg depth s alpha beta tt).1 = XVal.fin q) ∧
      TTInv (alphabeta cfg depth s alpha beta tt).2.2 := by
  intro depth
  induction depth with
  | zero =>
    intro s alpha beta tt htt
    unfold alphabeta
    match h : isTerminalAB (R := R) s with
    | some v => exact ⟨⟨v, rfl⟩, htt⟩
    | Option.none => exact ⟨⟨evaluate cfg.w s, rfl⟩, htt⟩
  | succ d ih =>
    intro s alpha beta tt htt
    unfold alphabeta
    match h : isTerminalAB (R := R) s with
    | some v => exact ⟨⟨v, rfl⟩, htt⟩
    | Option.none =>
      dsimp only
      split
      · rename_i r hp
        exact ⟨probeTT_some_fin hp htt, htt⟩
      · rename_i hp
        split
        · exact ⟨⟨-10000, rfl⟩, htt⟩
        · rename_i hne
          dsimp only
          have hgo : ∀ s' a b tt', TTInv tt' →
              (∃ q, (alphabeta cfg d s' a b tt').1 = XVal.fin q) ∧
              TTInv (alphabeta cfg d s' a b tt').2.2 :=
            fun s' a b tt' htt' => ih s' a b tt' htt'
          have hmoves : orderMoves cfg s (legalMoves s) ≠ [] :=
            orderMoves_ne_nil cfg s (by simpa using hne)
          match hm : orderMoves cfg s (legalMoves s) with
          | [] => exact absurd hm hmoves
          | m :: rest =>
            have hst := abFold_first_fin _ hgo s beta m rest
              ⟨XVal.negInf, (m :: rest).headD {}, alpha, tt, false⟩ htt rfl rfl
            have hinvf := (abFold_inv _ hgo s beta (m :: rest)
              ⟨XVal.negInf, (m :: rest).headD {}, alpha, tt, false⟩ htt).1
            have hble := abFold_ble (alphabeta cfg d) s beta (m :: rest)
              ⟨XVal.negInf, (m :: rest).headD {}, alpha, tt, false⟩ (ble_negInf_left alpha)
            obtain ⟨q, hq⟩ := hst
            refine ⟨⟨q, hq⟩, ?_⟩
            split
            · intro e he
              rcases mem_ttStore he with rfl | he
              · exact ⟨by simp [hble], ⟨q, hq⟩⟩
              · exact hinvf e he
            · exact hinvf

/-! ## C4: the flag stored in the transposition table -/

/-- The flag the specification prescribes: `Exact` when the value lies
strictly inside the window the node was *called* with, `Upper` when it
is at most the input alpha, `Lower` when it is at least beta. -/
def claimFlag {R : Type} [LinearOrder R] (inputAlpha beta best : XVal R) : TTFlag :=
  if XVal.ble best inputAlpha then .upperBound
  else if XVal.ble beta best then .lowerBound
  else .exact

/-- C4 (amended). Starting from a table whose entries all carry flag
`Upper`, every entry of the table after any `alphabeta` call still
carries flag `Upper`: the store compares the best value against the
loop-updated alpha, which the loop has raised to at least the best
value, so the `Exact` and `Lower` branches are unreachable. -/
theorem c4_stored_flag_upper {R : Type} [LinearOrderedCommRing R]
    (cfg : ABConfig R) (depth : Nat) (s : GameState) (alpha beta : XVal R)
    (tt : TTMap R) (htt : TTInv tt) (e : Nat × TTEntry R)
    (he : e ∈ (alphabeta cfg depth s alpha beta tt).2.2) :
    e.2.flag = TTFlag.upperBound :=
  ((alphabeta_inv cfg depth s alpha beta tt htt).2 e he).1

/-- The engine used for the concrete C4/C3 scenarios below: weights all
`1` (exactly the uniform freshly-initialised tables, scaled to an exact
float value), transposition table and move ordering enabled, as in the
default-constructed `AlphaBeta`. -/
def c4Cfg : ABConfig Int := ⟨uniformNet 1, true, true⟩

/-- Two lone pieces; Black to move has the two moves of the `(0,0)`
piece. -/
def c4State : GameState :=
  { board := ⟨(List.range 25).map fun i =>
      if i = 0 then ⟨.black, .none⟩
      else if i = 24 then ⟨.white, .none⟩ else Cell.empty⟩,
    toMove := .black, invB := ⟨0, 0⟩, invW := ⟨0, 0⟩, history := [] }

/-- C4 counterexample. At the root call `alphabeta(c4State, depth 1,
α = -∞, β = +∞)` the best value (33) lies strictly inside the input
window, so the claim prescribes flag `Exact`; the code stores `Upper`. -/
theorem c4_counterexample :
    (ttFind? (alphabeta c4Cfg 1 c4State XVal.negInf XVal.posInf []).2.2
        (abHash c4State)).map TTEntry.flag = some TTFlag.upperBound ∧
    claimFlag XVal.negInf XVal.posInf
        (alphabeta c4Cfg 1 c4State XVal.negInf XVal.posInf []).1 = TTFlag.exact ∧
    TTFlag.exact ≠ TTFlag.upperBound := by
  set_option maxRecDepth 100000 in decide!

/-- Witness for C4's amended theorem: the single entry stored by the
depth-1 root call on `c4State` carries flag `Upper`. -/
theorem c4_witness :
    TTInv ([] : TTMap Int) ∧
    ((1125899940397057,
        ({ hash := 1125899940397057, value := XVal.fin 33, depth := 1,
           flag := TTFlag.upperBound,
           best := { sx := 0, sy := 0, dx := 1, dy := 0, placeTile := false } } : TTEntry Int)) ∈
      (alphabeta c4Cfg 1 c4State XVal.negInf XVal.posInf []).2.2) ∧
    ((1125899940397057 : Nat),
        ({ hash := 1125899940397057, value := XVal.fin 33, depth := 1,
           flag := TTFlag.upperBound,
           best := { sx := 0, sy := 0, dx := 1, dy := 0, placeTile := false } } : TTEntry Int)).2.flag =
      TTFlag.upperBound :=
  ⟨ttInv_nil, by set_option maxRecDepth 100000 in decide!,
   c4_stored_flag_upper c4Cfg 1 c4State XVal.negInf XVal.posInf [] ttInv_nil _
     (by set_option maxRecDepth 100000 in decide!)⟩

/-! ## C3: TT-enabled versus TT-disabled search -/

theorem probeTT_false {R : Type} [LinearOrderedCommRing R] (tt : TTMap R)
    (h depth : Nat) (alpha beta : XVal R) :
    probeTT false tt h depth alpha beta = Option.none := rfl

theorem alphabeta_zero_val {R : Type} [LinearOrderedCommRing R]
    (cfg cfg' : ABConfig R) (hw : cfg.w = cfg'.w) (s : GameState)
    (a b a' b' : XVal R) (tt tt' : TTMap R) :
    (alphabeta cfg 0 s a b tt).1 = (alphabeta cfg' 0 s a' b' tt').1 := by
  unfold alphabeta
  cases isTerminalAB (R := R) s with
  | none => dsimp only; rw [hw]
  | some v => rfl

theorem alphabeta_zero_tt {R : Type} [LinearOrderedCommRing R]
    (cfg : ABConfig R) (s : GameState) (a b : XVal R) (tt : TTMap R) :
    (alphabeta cfg 0 s a b tt).2.2 = tt := by
  unfold alphabeta
  cases isTerminalAB (R := R) s <;> rfl

/-- One congruent step of the move loop for two engines whose child
calls agree on values (and whose TT-side child preserves the table
invariant): all fields except the tables evolve identically. -/
theorem abStep_congr {R : Type} [LinearOrderedCommRing R]
    (goT goF : GameState → XVal R → XVal R → TTMap R → XVal R × Move × TTMap R)
    (s : GameState) (beta : XVal R)
    (hval : ∀ s' ax ttT ttF, TTInv ttT →
      (goT s' (XVal.neg beta) ax ttT).1 = (goF s' (XVal.neg beta) ax ttF).1)
    (hinv : ∀ s' ax tt1, TTInv tt1 → TTInv (goT s' (XVal.neg beta) ax tt1).2.2)
    (m : Move) (stT stF : ABState R)
    (h1 : stT.best = stF.best) (h2 : stT.bestMove = stF.bestMove)
    (h3 : stT.alpha = stF.alpha) (h4 : stT.cut = stF.cut)
    (h5 : TTInv stT.tt) :
    (abStep goT s beta m stT).best = (abStep goF s beta m stF).best ∧
    (abStep goT s beta m stT).bestMove = (abStep goF s beta m stF).bestMove ∧
    (abStep goT s beta m stT).alpha = (abStep goF s beta m stF).alpha ∧
    (abStep goT s beta m stT).cut = (abStep goF s beta m stF).cut ∧
    TTInv (abStep goT s beta m stT).tt := by
  obtain ⟨bT, mvT, aT, tT, cT⟩ := stT
  obtain ⟨bF, mvF, aF, tF, cF⟩ := stF
  simp only at h1 h2 h3 h4 h5
  subst h1 h2 h3 h4
  have hv : (goT (s.applyMove m) (XVal.neg beta) (XVal.neg aT) tT).1 =
      (goF (s.applyMove m) (XVal.neg beta) (XVal.neg aT) tF).1 :=
    hval _ _ _ _ h5
  have hi := hinv (s.applyMove m) (XVal.neg aT) tT h5
  unfold abStep
  dsimp only
  rw [hv]
  by_cases hlt : XVal.blt bT
      (XVal.neg (goF (s.applyMove m) (XVal.neg beta) (XVal.neg aT) tF).1) = true
  · rw [if_pos hlt, if_pos hlt]
    dsimp only
    split
    · exact ⟨rfl, rfl, rfl, rfl, hi⟩
    · exact ⟨rfl, rfl, rfl, rfl, hi⟩
  · rw [if_neg hlt, if_neg hlt]
    dsimp only
    split
    · exact ⟨rfl, rfl, rfl, rfl, hi⟩
    · exact ⟨rfl, rfl, rfl, rfl, hi⟩

theorem abFold_congr {R : Type} [LinearOrderedCommRing R]
    (goT goF : GameState → XVal R → XVal R → TTMap R → XVal R × Move × TTMap R)
    (s : GameState) (beta : XVal R)
    (hval : ∀ s' ax ttT ttF, TTInv ttT →
      (goT s' (XVal.neg beta) ax ttT).1 = (goF s' (XVal.neg beta) ax ttF).1)
    (hinv : ∀ s' ax tt1, TTInv tt1 → TTInv (goT s' (XVal.neg beta) ax tt1).2.2) :
    ∀ (moves : List Move) (stT stF : ABState R),
      stT.best = stF.best → stT.bestMove = stF.bestMove → stT.alpha = stF.alpha →
      stT.cut = stF.cut → TTInv stT.tt →
      (abFold goT s beta moves stT).best = (abFold goF s beta moves stF).best ∧
      (abFold goT s beta moves stT).bestMove = (abFold goF s beta moves stF).bestMove := by
  intro moves
  induction moves with
  | nil => intro stT stF h1 h2 h3 h4 h5; exact ⟨h1, h2⟩
  | cons m rest ih =>
    intro stT stF h1 h2 h3 h4 h5
    unfold abFold
    by_cases hc : stT.cut = true
    · rw [if_pos hc, if_pos (h4 ▸ hc)]
      exact ⟨h1, h2⟩
    · rw [if_neg hc, if_neg (h4 ▸ hc)]
      obtain ⟨g1, g2, g3, g4, g5⟩ :=
        abStep_congr goT goF s beta hval hinv m stT stF h1 h2 h3 h4 h5
      exact ih _ _ g1 g2 g3 g4 g5

/-- Depth-1 calls with `alpha = -∞` return the same value with the table
enabled or disabled: under the all-`Upper` invariant no probe can
succeed, and depth-0 children neither read nor write the table. -/
theorem alphabeta_one_val {R : Type} [LinearOrderedCommRing R]
    (w : NetWeights R) (ord : Bool) (s : GameState) (beta : XVal R)
    (ttT ttF : TTMap R) (htt : TTInv ttT) :
    (alphabeta ⟨w, true, ord⟩ 1 s XVal.negInf beta ttT).1 =
    (alphabeta ⟨w, false, ord⟩ 1 s XVal.negInf beta ttF).1 := by
  rw [show (1 : Nat) = 0 + 1 from rfl]
  unfold alphabeta
  cases isTerminalAB (R := R) s with
  | some v => rfl
  | none =>
    dsimp only
    rw [probeTT_miss htt, probeTT_false]
    dsimp only
    split
    · rfl
    · have hORD : orderMoves (⟨w, true, ord⟩ : ABConfig R) s (legalMoves s) =
          orderMoves (⟨w, false, ord⟩ : ABConfig R) s (legalMoves s) := rfl
      rw [← hORD]
      exact (abFold_congr (alphabeta ⟨w, true, ord⟩ 0) (alphabeta ⟨w, false, ord⟩ 0) s beta
        (fun s' ax tt1 tt2 _ => alphabeta_zero_val ⟨w, true, ord⟩ ⟨w, false, ord⟩ rfl s'
          (XVal.neg beta) ax (XVal.neg beta) ax tt1 tt2)
        (fun s' ax tt1 h1 => by rw [alphabeta_zero_tt]; exact h1)
        (orderMoves ⟨w, true, ord⟩ s (legalMoves s))
        ⟨XVal.negInf, (orderMoves (⟨w, true, ord⟩ : ABConfig R) s (legalMoves s)).headD {},
          XVal.negInf, ttT, false⟩
        ⟨XVal.negInf, (orderMoves (⟨w, true, ord⟩ : ABConfig R) s (legalMoves s)).headD {},
          XVal.negInf, ttF, false⟩
        rfl rfl rfl rfl htt).1

/-- Depth-2 root calls with the full window return the same value with
the table enabled or disabled: the root probe misses, and every child is
a depth-1 call with `alpha = -∞`. -/
theorem alphabeta_two_val {R : Type} [LinearOrderedCommRing R]
    (w : NetWeights R) (ord : Bool) (s : GameState)
    (ttT ttF : TTMap R) (htt : TTInv ttT) :
    (alphabeta ⟨w, true, ord⟩ 2 s XVal.negInf XVal.posInf ttT).1 =
    (alphabeta ⟨w, false, ord⟩ 2 s XVal.negInf XVal.posInf ttF).1 := by
  rw [show (2 : Nat) = 1 + 1 from rfl]
  unfold alphabeta
  cases isTerminalAB (R := R) s with
  | some v => rfl
  | none =>
    dsimp only
    rw [probeTT_miss htt, probeTT_false]
    dsimp only
    split
    · rfl
    · have hORD : orderMoves (⟨w, true, ord⟩ : ABConfig R) s (legalMoves s) =
          orderMoves (⟨w, false, ord⟩ : ABConfig R) s (legalMoves s) := rfl
      rw [← hORD]
      exact (abFold_congr (alphabeta ⟨w, true, ord⟩ 1) (alphabeta ⟨w, false, ord⟩ 1) s
        XVal.posInf
        (fun s' ax tt1 tt2 h1 => alphabeta_one_val w ord s' ax tt1 tt2 h1)
        (fun s' ax tt1 h1 => (alphabeta_inv _ 1 s' _ ax tt1 h1).2)
        (orderMoves ⟨w, true, ord⟩ s (legalMoves s))
        ⟨XVal.negInf, (orderMoves (⟨w, true, ord⟩ : ABConfig R) s (legalMoves s)).headD {},
          XVal.negInf, ttT, false⟩
        ⟨XVal.negInf, (orderMoves (⟨w, true, ord⟩ : ABConfig R) s (legalMoves s)).headD {},
          XVal.negInf, ttF, false⟩
        rfl rfl rfl rfl htt).1

/-- C3 (amended). The TT-enabled and TT-disabled searches return the
same principal value for every position at depths up to 2; from depth 3
they can differ (`c3_counterexample`): the code stores every entry with
flag `Upper` even after a β-cutoff, so a probe may return a lower bound
as if it were an upper bound, and the position hash is not injective. -/
theorem c3_search_agrees_up_to_depth_two {R : Type} [LinearOrderedCommRing R]
    (w : NetWeights R) (ord : Bool) (s : GameState) (d : Nat) (hd : d ≤ 2) :
    searchValue ⟨w, true, ord⟩ s d = searchValue ⟨w, false, ord⟩ s d := by
  interval_cases d
  · rfl
  · simp only [searchValue, List.range_succ, List.range_zero, List.nil_append,
      List.foldl_cons, List.foldl_nil]
    exact alphabeta_one_val w ord s XVal.posInf [] [] ttInv_nil
  · simp only [searchValue, List.range_succ, List.range_zero, List.nil_append,
      List.foldl_append, List.foldl_cons, List.foldl_nil]
    exact alphabeta_two_val w ord s _ _
      (alphabeta_inv (⟨w, true, ord⟩ : ABConfig R) 1 s XVal.negInf XVal.posInf [] ttInv_nil).2

/-- Witness for C3's amended theorem at depth 2 on the initial state
with the uniform network. -/
theorem c3_witness :
    (2 : Nat) ≤ 2 ∧
    searchValue (⟨uniformNet 1, true, true⟩ : ABConfig Int) GameState.initial 2 =
      searchValue (⟨uniformNet 1, false, true⟩ : ABConfig Int) GameState.initial 2 :=
  ⟨by decide,
   c3_search_agrees_up_to_depth_two (uniformNet 1) true GameState.initial 2 (by decide)⟩

/-- Integer-valued weight tables (all entries below 2^24 in magnitude,
hence exactly float-representable with exact sums) for the C3
counterexample. -/
def c3Weights : NetWeights Int :=
  ⟨fun i idx => ((i * 131 + idx * 37) % 23 : Nat) - 11,
   fun i idx => ((i * 17 + idx * 53) % 19 : Nat) - 9,
   fun h => h⟩

/-- Black piece on `(2,1)`, White piece on `(1,2)`, Black to move, empty
inventories. The subtree contains a second position with the same weak
64-bit hash (the XOR shifts collide), which the depth-3 search probes. -/
def c3State : GameState :=
  { board := ⟨(List.range 25).map fun i =>
      if i = 7 then ⟨.black, .none⟩
      else if i = 11 then ⟨.white, .none⟩ else Cell.empty⟩,
    toMove := .black, invB := ⟨0, 0⟩, invW := ⟨0, 0⟩, history := [] }

/-- C3 counterexample. At depth 3 from `c3State`, the search with the
transposition table enabled returns 30 while the same search with the
table disabled returns 36. -/
theorem c3_counterexample :
    searchValue (⟨c3Weights, true, true⟩ : ABConfig Int) c3State 3 ≠
    searchValue (⟨c3Weights, false, true⟩ : ABConfig Int) c3State 3 := by
  set_option maxRecDepth 1000000 in decide!

/-! ## MCTS visit accounting (`mcts.cpp`)

The float quantities of the MCTS (the UCB1 selection scores and the
`tanh`-squashed simulation values) are abstracted as parameters: `pick`
stands for the argmax over the children's UCB1 scores (the C++ always
selects some child when the list is non-empty), and `sim` for
`MCTS::simulate` as a function of the node's state and terminal flag.
The visit-count property under verification is independent of both. -/

/-- An MCTS node: state, incoming move, visits, total value, terminal
flag, expanded flag, children. -/
inductive MTree where
  | mk : GameState → Move → Nat → Rat → Bool → Bool → List MTree → MTree

def MTree.state : MTree → GameState
  | .mk s _ _ _ _ _ _ => s

def MTree.move : MTree → Move
  | .mk _ m _ _ _ _ _ => m

def MTree.visits : MTree → Nat
  | .mk _ _ v _ _ _ _ => v

def MTree.isTerminal : MTree → Bool
  | .mk _ _ _ _ te _ _ => te

def MTree.isExpanded : MTree → Bool
  | .mk _ _ _ _ _ ex _ => ex

def MTree.children : MTree → List MTree
  | .mk _ _ _ _ _ _ ch => ch

/-- `MCTS::is_terminal`. -/
def isTerminalMCTS (s : GameState) : Bool :=
  (legalMoves s).isEmpty || isWin s .black || isWin s .white

/-- `MCTS::expand`: one child per legal move, with the terminal flag
precomputed on the child state. -/
def expandChildren (s : GameState) : List MTree :=
  (legalMoves s).map fun m =>
    .mk (s.applyMove m) m 0 0 (isTerminalMCTS (s.applyMove m)) false []

/-- The leaf stage of one search iteration: the conditional expansion,
the move to `children[0]` when children exist, the simulation, and the
two innermost backpropagation steps (the caller finishes the walk to
the root). Returns the value added at this node (negated once per level
above). -/
def leafStage (sim : GameState → Bool → Rat) (s : GameState) (mv : Move)
    (visits : Nat) (total : Rat) (term expd : Bool)
    (children : List MTree) : MTree × Rat :=
  if 0 < visits ∧ term = false then
    let exp : Bool × Bool × List MTree :=
      if term = true ∨ expd = true then (term, expd, children)
      else if legalMoves s = [] then (true, true, children)
      else (term, true, expandChildren s)
    match exp with
    | (term', expd', children') =>
      match children' with
      | [] => (.mk s mv (visits + 1) (total + sim s term') term' expd' [], sim s term')
      | .mk cs cmv cv ct cterm cexp cch :: rest =>
        let v := sim cs cterm
        (.mk s mv (visits + 1) (total + (-v)) term' expd'
          (.mk cs cmv (cv + 1) (ct + v) cterm cexp cch :: rest), -v)
  else
    (.mk s mv (visits + 1) (total + sim s term) term expd children, sim s term)

mutual

/-- One full MCTS iteration (select / expand / simulate /
backpropagate): descend while the node is expanded, non-terminal and
has children (updating visits and totals along the selected path, with
the value negated at each level), then run the leaf stage. -/
def iterOnce (pick : MTree → Nat) (sim : GameState → Bool → Rat) :
    MTree → MTree × Rat
  | t@(.mk s mv visits total term expd children) =>
    if expd = true ∧ term = false ∧ children.isEmpty = false then
      let r := iterList pick sim children (pick t % children.length)
      (.mk s mv (visits + 1) (total + (-r.2)) term expd r.1, -r.2)
    else
      leafStage sim s mv visits total term expd children

/-- Walk to the selected child index and run the iteration there. -/
def iterList (pick : MTree → Nat) (sim : GameState → Bool → Rat) :
    List MTree → Nat → List MTree × Rat
  | [], _ => ([], 0)
  | c :: rest, 0 => (((iterOnce pick sim c).1) :: rest, (iterOnce pick sim c).2)
  | c :: rest, n + 1 =>
    ((c :: (iterList pick sim rest n).1), (iterList pick sim rest n).2)

end

/-- `MCTS::search` restricted to its tree evolution: `iterations`
passes from a fresh root (whose incoming move is `Move{0, 0}`). -/
def mctsSearchTree (pick : MTree → Nat) (sim : GameState → Bool → Rat)
    (s : GameState) (iterations : Nat) : MTree :=
  (List.range iterations).foldl
    (fun t _ => (iterOnce pick sim t).1)
    (.mk s { sx := 0, sy := 0 } 0 0 false false [])

/-- The sum of the root children's visit counts. -/
def childVisitSum (t : MTree) : Nat :=
  (t.children.map MTree.visits).sum

/-! ## C6: visit accounting -/

theorem iterOnce_visits (pick : MTree → Nat) (sim : GameState → Bool → Rat)
    (t : MTree) : ((iterOnce pick sim t).1).visits = t.visits + 1 := by
  obtain ⟨s, mv, visits, total, term, expd, children⟩ := t
  rw [iterOnce]
  split
  · rfl
  · unfold leafStage
    split
    · split
      · dsimp only
        split <;> rfl
      · split
        · dsimp only
          split <;> rfl
        · dsimp only
          split <;> rfl
    · rfl

theorem iterList_length (pick : MTree → Nat) (sim : GameState → Bool → Rat) :
    ∀ (l : List MTree) (n : Nat), ((iterList pick sim l n).1).length = l.length := by
  intro l
  induction l with
  | nil => intro n; rw [iterList]
  | cons c rest ih =>
    intro n
    match n with
    | 0 => rw [iterList]; rfl
    | n + 1 =>
      rw [iterList]
      simp [ih n]

theorem iterList_visitSum (pick : MTree → Nat) (sim : GameState → Bool → Rat) :
    ∀ (l : List MTree) (n : Nat), n < l.length →
      (((iterList pick sim l n).1).map MTree.visits).sum =
        ((l.map MTree.visits).sum) + 1 := by
  intro l
  induction l with
  | nil => intro n h; cases h
  | cons c rest ih =>
    intro n h
    match n with
    | 0 =>
      rw [iterList]
      simp only [List.map_cons, List.sum_cons, iterOnce_visits]
      omega
    | n + 1 =>
      rw [iterList]
      simp only [List.map_cons, List.sum_cons]
      rw [ih n (by simpa using h)]
      omega

theorem expandChildren_visitSum (s : GameState) :
    (((expandChildren s).map MTree.visits)).sum = 0 := by
  unfold expandChildren
  induction legalMoves s with
  | nil => rfl
  | cons m rest ih => simpa [MTree.visits] using ih

theorem mapMk_visitSum (s : GameState) (l : List Move) :
    ((l.map fun m =>
        MTree.mk (s.applyMove m) m 0 0 (isTerminalMCTS (s.applyMove m)) false []).map
      MTree.visits).sum = 0 := by
  induction l with
  | nil => rfl
  | cons a t ih => simpa [MTree.visits] using ih

theorem mctsSearchTree_succ (pick : MTree → Nat) (sim : GameState → Bool → Rat)
    (s : GameState) (n : Nat) :
    mctsSearchTree pick sim s (n + 1) =
      (iterOnce pick sim (mctsSearchTree pick sim s n)).1 := by
  unfold mctsSearchTree
  rw [List.range_succ, List.foldl_append, List.foldl_cons, List.foldl_nil]

/-- The root invariant: after `n ≥ 1` iterations the root holds the
original state, is non-terminal, has been visited `n` times; after the
first iteration it is still unexpanded with no children, and from the
second iteration on it is expanded with children whose visits sum to
`n - 1`. -/
theorem mcts_root_inv (pick : MTree → Nat) (sim : GameState → Bool → Rat)
    (s : GameState) (hs : legalMoves s ≠ []) :
    ∀ n : Nat, 1 ≤ n →
      (mctsSearchTree pick sim s n).state = s ∧
      (mctsSearchTree pick sim s n).isTerminal = false ∧
      (mctsSearchTree pick sim s n).visits = n ∧
      ((n = 1 ∧ (mctsSearchTree pick sim s n).isExpanded = false ∧
        (mctsSearchTree pick sim s n).children = []) ∨
       (2 ≤ n ∧ (mctsSearchTree pick sim s n).isExpanded = true ∧
        (mctsSearchTree pick sim s n).children ≠ [] ∧
        childVisitSum (mctsSearchTree pick sim s n) = n - 1)) := by
  intro n hn
  induction n, hn using Nat.le_induction with
  | base =>
    rw [show (1 : Nat) = 0 + 1 from rfl, mctsSearchTree_succ]
    have h0 : mctsSearchTree pick sim s 0 =
        .mk s { sx := 0, sy := 0 } 0 0 false false [] := rfl
    rw [h0, iterOnce]
    rw [if_neg (by simp)]
    unfold leafStage
    rw [if_neg (by simp)]
    exact ⟨rfl, rfl, rfl, Or.inl ⟨rfl, rfl, rfl⟩⟩
  | succ n hn ih =>
    rw [mctsSearchTree_succ]
    obtain ⟨hstate, hterm, hvis, hcase⟩ := ih
    obtain ⟨s', mv', v', tot', te', ex', ch', hT⟩ :
        ∃ a b c d e f g, mctsSearchTree pick sim s n = MTree.mk a b c d e f g := by
      cases mctsSearchTree pick sim s n with
      | mk a b c d e f g => exact ⟨a, b, c, d, e, f, g, rfl⟩
    rw [hT] at hstate hterm hvis hcase ⊢
    simp only [MTree.state, MTree.isTerminal, MTree.visits, MTree.isExpanded,
      MTree.children, childVisitSum] at hstate hterm hvis hcase
    subst hterm hvis
    subst s'
    rcases hcase with ⟨hn1, hexp, hch⟩ | ⟨hn2, hexp, hch, hsum⟩
    · -- n = 1: the root gets expanded and the walk moves to children[0]
      subst hexp hch hn1
      rw [iterOnce]
      rw [if_neg (by simp)]
      unfold leafStage
      rw [if_pos (by simp)]
      rw [if_neg (by simp), if_neg hs]
      dsimp only
      unfold expandChildren
      match hlm : legalMoves s with
      | [] => exact absurd hlm hs
      | m :: rest =>
        simp only [List.map_cons]
        refine ⟨rfl, rfl, rfl, Or.inr ⟨by omega, rfl, by simp [MTree.children], ?_⟩⟩
        unfold childVisitSum
        simp only [MTree.children, List.map_cons, List.sum_cons, MTree.visits]
        rw [mapMk_visitSum]
    · -- n ≥ 2: descend into the selected child
      subst hexp
      obtain ⟨c0, cs, rfl⟩ : ∃ c0 cs, ch' = c0 :: cs := by
        cases ch' with
        | nil => exact absurd rfl hch
        | cons a l => exact ⟨a, l, rfl⟩
      rw [iterOnce]
      rw [if_pos ⟨rfl, rfl, rfl⟩]
      dsimp only
      refine ⟨rfl, rfl, rfl, Or.inr ⟨by omega, rfl, ?_, ?_⟩⟩
      · simp only [MTree.children]
        intro hnil
        have hl := congrArg List.length hnil
        rw [iterList_length] at hl
        simp at hl
      · unfold childVisitSum
        simp only [MTree.children]
        rw [iterList_visitSum pick sim (c0 :: cs) _ (Nat.mod_lt _ (by simp)), hsum]
        omega

/-- C6 (amended). For every root state with at least one legal move,
after `N ≥ 1` iterations the sum of the root children's visit counts is
`N - 1`, not `N`: the first iteration only samples the root itself (the
root is expanded during the second iteration); every later iteration
increments exactly one root child. The UCB1 selection and the simulation
values are abstracted as the parameters `pick` and `sim`; the property
holds for every choice of them. -/
theorem c6_visit_sum (pick : MTree → Nat) (sim : GameState → Bool → Rat)
    (s : GameState) (hs : legalMoves s ≠ []) (n : Nat) (hn : 1 ≤ n) :
    childVisitSum (mctsSearchTree pick sim s n) = n - 1 := by
  rcases (mcts_root_inv pick sim s hs n hn).2.2.2 with ⟨hn1, _, hch⟩ | ⟨_, _, _, hsum⟩
  · unfold childVisitSum
    rw [hch, hn1]
    rfl
  · exact hsum

/-- Witness for C6's amended theorem: three iterations from the initial
position leave the root children's visits summing to 2. -/
theorem c6_witness :
    legalMoves GameState.initial ≠ [] ∧ (1 : Nat) ≤ 3 ∧
    childVisitSum (mctsSearchTree (fun _ => 0) (fun _ _ => 0) GameState.initial 3) = 2 :=
  ⟨by set_option maxRecDepth 100000 in decide!, by decide,
   c6_visit_sum (fun _ => 0) (fun _ _ => 0) GameState.initial
     (by set_option maxRecDepth 100000 in decide!) 3 (by decide)⟩

/-- C6 counterexample. After `N = 1` iteration from the initial
position the root has no children at all, so the sum of the children's
visit counts is `0`, not `N = 1`. -/
theorem c6_counterexample :
    ¬ (childVisitSum (mctsSearchTree (fun _ => 0) (fun _ _ => 0) GameState.initial 1) = 1) := by
  have h := (mcts_root_inv (fun _ => 0) (fun _ _ => 0) GameState.initial
    (by set_option maxRecDepth 100000 in decide!) 1 (by decide)).2.2.2
  rcases h with ⟨_, _, hch⟩ | ⟨hn2, _⟩
  · unfold childVisitSum
    rw [hch]
    decide
  · omega

/-! ## The match server (`src/server/main.cpp`)

The server logic is modelled per connection-independent step: the global
mutable state (`g_state`, `g_last_move`, `g_status`, `g_game_id`,
`g_last_received_move_id`, the client list) is a `ServerState` value and
`handle_move` a function from it. Socket I/O, logging and locking are
effect-free for this state and are dropped; the messages sent are
summarised in the `MoveOutcome` result. The `game_id`/`move_id` fields
of the wire move and the snapshot are used throughout `main.cpp`; the
checked-in `protocol.hpp` predates them (they read as 0 when absent), so
they are modelled as `Nat` fields defaulting to 0, following the
server's usage. -/

/-- `player_to_symbol`. -/
def playerToSymbol : Player → Char
  | .black => 'X'
  | .white => 'O'
  | .none => '?'

/-- `role_to_player`. -/
def roleToPlayer (role : String) : Player :=
  if role = "X" then .black
  else if role = "O" then .white
  else .none

/-- `coord_to_xy`: file letter to x, rank digit to y (rank 1 is the
bottom row y = 4). -/
def coordToXY (c : Char × Char) : Int × Int :=
  ((c.1.toNat : Int) - 97, 4 - ((c.2.toNat : Int) - 49))

/-- `tile_from_char`. -/
def tileFromChar (c : Char) : TileType :=
  if c = 'b' then .black
  else if c = 'g' then .gray
  else .none

/-- `protocol::TilePlacement` (the C++ default `coord` is the empty
string; it is only read when `skip` is false). -/
structure TilePlacement where
  skip : Bool := true
  coord : Char × Char := ('a', '1')
  color : Char := 'b'
deriving DecidableEq, Repr

/-- `protocol::Move`, with the `game_id`/`move_id` fields the server
reads (0 = absent). -/
structure ProtoMove where
  origin : Char × Char
  target : Char × Char
  tile : TilePlacement := {}
  gameId : Nat := 0
  moveId : Nat := 0
deriving DecidableEq, Repr

/-- `convert_move`. -/
def convertMove (pm : ProtoMove) : Move :=
  let s := coordToXY pm.origin
  let d := coordToXY pm.target
  let base : Move := { sx := s.1, sy := s.2, dx := d.1, dy := d.2 }
  if pm.tile.skip then base
  else
    let t := coordToXY pm.tile.coord
    { base with
      placeTile := true, tx := t.1, ty := t.2,
      tile := tileFromChar pm.tile.color }

/-- `protocol::format_move` (the string stored in `g_last_move`). -/
def formatMove (pm : ProtoMove) : String :=
  String.mk ([pm.origin.1, pm.origin.2, ',', pm.target.1, pm.target.2, ' '] ++
    (if pm.tile.skip then ['-', '1']
     else [pm.tile.coord.1, pm.tile.coord.2, pm.tile.color]))

/-- `moves_equal`: coordinate and placement-flag equality, with the tile
fields compared only when both moves place a tile. -/
def movesEqual (a b : Move) : Bool :=
  if a.sx ≠ b.sx ∨ a.sy ≠ b.sy ∨ a.dx ≠ b.dx ∨ a.dy ≠ b.dy then false
  else if a.placeTile ≠ b.placeTile then false
  else if a.placeTile = false then true
  else decide (a.tx = b.tx ∧ a.ty = b.ty ∧ a.tile = b.tile)

/-- One connected client (`ClientSession`, without the socket fd). -/
structure Client where
  role : String := "spectator"
  name : String := "anon"
  ready : Bool := false
  multi : Bool := false
deriving DecidableEq, Repr

/-- The server's global game-related state. -/
structure ServerState where
  game : GameState
  lastMove : String
  status : String
  gameId : Nat
  lastMidX : Nat
  lastMidO : Nat
  clients : List Client
deriving DecidableEq

/-- Read `g_last_received_move_id[role]` (only reached with role X or O). -/
def lastMid (st : ServerState) (role : String) : Nat :=
  if role = "X" then st.lastMidX else st.lastMidO

/-- Write `g_last_received_move_id[role]`. -/
def setLastMid (st : ServerState) (role : String) (v : Nat) : ServerState :=
  if role = "X" then { st with lastMidX := v } else { st with lastMidO := v }

/-- `protocol::StateSnapshot` as filled in by `build_snapshot`. The
`pieces`/`tiles` coordinate maps are built injectively from the board
cells, so the board stands for them here. -/
structure Snapshot where
  boardCells : Board
  turn : Char
  status : String
  lastMove : String
  stockBlack : Int × Int
  stockGray : Int × Int
  gameId : Nat
deriving DecidableEq

/-- `build_snapshot`. -/
def buildSnapshot (st : ServerState) : Snapshot :=
  { boardCells := st.game.board,
    turn := playerToSymbol st.game.toMove,
    status := st.status,
    lastMove := st.lastMove,
    stockBlack := ((st.game.inventory .black).black, (st.game.inventory .white).black),
    stockGray := ((st.game.inventory .black).gray, (st.game.inventory .white).gray),
    gameId := st.gameId }

/-- `update_status` run after the move was applied: `is_win` for the
mover, then `is_loss` for the opponent (which `Rules::is_loss` ignores,
testing the side to move of `g`), then `is_draw`. -/
def updateStatus (g : GameState) (lastPlayer : Player) : String :=
  if isWin g lastPlayer then String.mk [playerToSymbol lastPlayer] ++ "_win"
  else if isLoss g then String.mk [playerToSymbol lastPlayer] ++ "_win"
  else if isDraw g then "draw"
  else "ongoing"

/-- `reset_game`: fresh position and status, `g_game_id` incremented,
move-id tracking cleared, and every client's ready flag cleared. -/
def resetGame (st : ServerState) : ServerState :=
  { game := GameState.initial,
    lastMove := "",
    status := "ongoing",
    gameId := st.gameId + 1,
    lastMidX := 0,
    lastMidO := 0,
    clients := st.clients.map fun c => { c with ready := false } }

/-- `both_players_multi_game`: the last client registered for each role
determines that role's flag. -/
def bothMulti (cs : List Client) : Bool :=
  (cs.foldl (fun acc c => if c.role = "X" then c.multi else acc) false) &&
  (cs.foldl (fun acc c => if c.role = "O" then c.multi else acc) false)

/-- The best-effort diagnostic chosen by `handle_move` for an illegal
move, one constructor per C++ message text. -/
inductive IllegalReason where
  | outOfBounds
  | originNotOwn (occ : Player)
  | destOccupied (occ : Player)
  | tileOutOfBounds
  | tileTargetHasTile
  | noBlackTiles
  | noGrayTiles
  | notInList
deriving DecidableEq, Repr

/-- The reason if-chain from `handle_move` (empty reason falls through to
the generic `notInList` message). -/
def illegalReason (g : GameState) (p : Player) (desired : Move) : IllegalReason :=
  if ¬ inBounds desired.sx desired.sy ∨ ¬ inBounds desired.dx desired.dy then
    .outOfBounds
  else if (g.board.at desired.sx desired.sy).occupant ≠ p then
    .originNotOwn (g.board.at desired.sx desired.sy).occupant
  else if (g.board.at desired.dx desired.dy).occupant ≠ .none then
    .destOccupied (g.board.at desired.dx desired.dy).occupant
  else if desired.placeTile then
    if ¬ inBounds desired.tx desired.ty then .tileOutOfBounds
    else if (g.board.at desired.tx desired.ty).tile ≠ .none then .tileTargetHasTile
    else if desired.tile = .black ∧ (g.inventory p).black ≤ 0 then .noBlackTiles
    else if desired.tile = .gray ∧ (g.inventory p).gray ≤ 0 then .noGrayTiles
    else .notInList
  else .notInList

/-- The messages `handle_move` sends, with the snapshot it broadcasts
where it broadcasts one. -/
inductive MoveOutcome where
  | errSpectator
  | errUnknownRole
  | errStaleGameId (snap : Snapshot)
  | errWrongTurn (cur : Char)
  | errDuplicateMoveId (snap : Snapshot)
  | errIllegal (reason : IllegalReason) (snap : Snapshot)
  | applied (snap : Snapshot) (autoReset : Bool)
deriving DecidableEq

/-- The state updates of the accepted-move branch of `handle_move`:
apply the matched legal move, record `g_last_move`, record the move id
when one was given, then `update_status`. -/
def applyPhase (st : ServerState) (role : String) (pm : ProtoMove) (mv : Move) :
    ServerState :=
  let st1 := { st with game := st.game.applyMove mv, lastMove := formatMove pm }
  let st2 := if pm.moveId ≠ 0 then setLastMid st1 role pm.moveId else st1
  { st2 with status := updateStatus (st.game.applyMove mv) (roleToPlayer role) }

/-- `handle_move`. Check order as in the C++: spectator, unknown role,
stale `game_id` (the error is only sent when the freshly built snapshot
carries a nonzero id, hence the `st.gameId ≠ 0` conjunct), wrong turn,
duplicate `move_id`, legality; then apply, and auto-reset when the game
ended with both players in multi-game mode. -/
def handleMove (st : ServerState) (role : String) (pm : ProtoMove) :
    ServerState × MoveOutcome :=
  if role ≠ "O" ∧ role ≠ "X" then (st, .errSpectator)
  else if roleToPlayer role = .none then (st, .errUnknownRole)
  else if pm.gameId ≠ 0 ∧ pm.gameId ≠ st.gameId ∧ st.gameId ≠ 0 then
    (st, .errStaleGameId (buildSnapshot st))
  else if roleToPlayer role ≠ st.game.toMove then
    (st, .errWrongTurn (playerToSymbol st.game.toMove))
  else if pm.moveId ≠ 0 ∧ pm.moveId ≤ lastMid st role then
    (st, .errDuplicateMoveId (buildSnapshot st))
  else
    match (legalMoves st.game).find? (fun c => movesEqual c (convertMove pm)) with
    | Option.none =>
      (st, .errIllegal (illegalReason st.game (roleToPlayer role) (convertMove pm))
        (buildSnapshot st))
    | some mv =>
      if (applyPhase st role pm mv).status ≠ "ongoing" ∧
          bothMulti (applyPhase st role pm mv).clients = true then
        (resetGame (applyPhase st role pm mv),
          .applied (buildSnapshot (applyPhase st role pm mv)) true)
      else
        (applyPhase st role pm mv,
          .applied (buildSnapshot (applyPhase st role pm mv)) false)

/-- The snapshot carried by an outcome (a fresh-server snapshot for the
outcomes that carry none). -/
def MoveOutcome.snapOf : MoveOutcome → Snapshot
  | .errStaleGameId s => s
  | .errDuplicateMoveId s => s
  | .errIllegal _ s => s
  | .applied s _ => s
  | _ => { boardCells := Board.initial, turn := 'X', status := "ongoing",
           lastMove := "", stockBlack := (3, 3), stockGray := (1, 1), gameId := 1 }

/-- Discriminator for the duplicate-move-id error. -/
def MoveOutcome.isDup : MoveOutcome → Bool
  | .errDuplicateMoveId _ => true
  | _ => false

/-- The server state right after startup: default game, id 1, an X and
an O client, nobody ready, nobody in multi-game mode. -/
def serverInit : ServerState :=
  { game := GameState.initial, lastMove := "", status := "ongoing", gameId := 1,
    lastMidX := 0, lastMidO := 0,
    clients := [{ role := "X" }, { role := "O" }] }

/-- Protocol move a5,a4 -1 (black a5 one step down) with ids (1, 1). -/
def c7Move : ProtoMove :=
  { origin := ('a', '5'), target := ('a', '4'), gameId := 1, moveId := 1 }

/-- A board with a single black piece one row short of the far side. -/
def c8Board : Board :=
  Board.setOcc { cells := List.replicate 25 Cell.empty } 0 3 .black

/-- Black to move, about to win by reaching row 4. -/
def c8Game : GameState :=
  { board := c8Board, toMove := .black, invB := ⟨3, 1⟩, invW := ⟨3, 1⟩,
    history := [] }

/-- A server mid-game on `c8Game`, both players ready and in multi-game
mode. -/
def c8State : ServerState :=
  { game := c8Game, lastMove := "", status := "ongoing", gameId := 1,
    lastMidX := 0, lastMidO := 0,
    clients := [{ role := "X", ready := true, multi := true },
                { role := "O", ready := true, multi := true }] }

/-- Protocol move a2,a1 -1: the winning step onto row 4. -/
def c8Move : ProtoMove :=
  { origin := ('a', '2'), target := ('a', '1'), gameId := 1, moveId := 1 }

/-! ## Server lemmas and C7, C8 -/

theorem applyMove_toMove (s : GameState) (m : Move)
    (h1 : inBounds m.sx m.sy = true) (h2 : inBounds m.dx m.dy = true) :
    (s.applyMove m).toMove = if s.toMove = .black then .white else .black := by
  unfold GameState.applyMove
  rw [if_neg (by simp [h1]), if_neg (by simp [h2])]

theorem applyPhase_fields (st : ServerState) (role : String) (pm : ProtoMove)
    (mv : Move) :
    (applyPhase st role pm mv).game = st.game.applyMove mv ∧
    (applyPhase st role pm mv).gameId = st.gameId ∧
    (applyPhase st role pm mv).clients = st.clients := by
  unfold applyPhase setLastMid
  dsimp only
  split
  · split <;> exact ⟨rfl, rfl, rfl⟩
  · exact ⟨rfl, rfl, rfl⟩

/-- Inversion of the accepted-move path of `handleMove`: the checks that
must have passed, the matched legal move, and the two exit shapes. -/
theorem handleMove_applied {st : ServerState} {role : String} {pm : ProtoMove}
    {st2 : ServerState} {snap : Snapshot} {r : Bool}
    (h : handleMove st role pm = (st2, .applied snap r)) :
    ∃ mv, (legalMoves st.game).find? (fun c => movesEqual c (convertMove pm)) = some mv ∧
      ¬(role ≠ "O" ∧ role ≠ "X") ∧
      roleToPlayer role ≠ .none ∧
      ¬(pm.gameId ≠ 0 ∧ pm.gameId ≠ st.gameId ∧ st.gameId ≠ 0) ∧
      roleToPlayer role = st.game.toMove ∧
      snap = buildSnapshot (applyPhase st role pm mv) ∧
      ((r = true ∧ st2 = resetGame (applyPhase st role pm mv)) ∨
       (r = false ∧ st2 = applyPhase st role pm mv)) := by
  unfold handleMove at h
  split at h
  · simp at h
  rename_i hc1
  split at h
  · simp at h
  rename_i hc2
  split at h
  · simp at h
  rename_i hc3
  split at h
  · simp at h
  rename_i hc4
  split at h
  · simp at h
  rename_i hc5
  split at h
  · simp at h
  rename_i mv hfind
  split at h
  · rw [Prod.mk.injEq] at h
    obtain ⟨hst, hout⟩ := h
    injection hout with hsnap hr
    exact ⟨mv, hfind, hc1, hc2, hc3, not_ne_iff.mp hc4, hsnap.symm,
      Or.inl ⟨hr.symm, hst.symm⟩⟩
  · rw [Prod.mk.injEq] at h
    obtain ⟨hst, hout⟩ := h
    injection hout with hsnap hr
    exact ⟨mv, hfind, hc1, hc2, hc3, not_ne_iff.mp hc4, hsnap.symm,
      Or.inr ⟨hr.symm, hst.symm⟩⟩

/-- C7 (amended). When a MOVE was accepted and applied and no automatic
rematch reset followed, resubmitting the identical message (same
`game_id` and `move_id`) does not reach the duplicate-`move_id` check:
the turn check, which `handle_move` runs first, already fails (the
accepted move flipped the side to move), so the client gets the
wrong-turn ERROR, no STATE snapshot is broadcast, and the server state
is unchanged. -/
theorem c7_resubmission (st : ServerState) (role : String) (pm : ProtoMove)
    (st1 : ServerState) (snap : Snapshot)
    (h : handleMove st role pm = (st1, .applied snap false)) :
    handleMove st1 role pm = (st1, .errWrongTurn (playerToSymbol st1.game.toMove)) := by
  obtain ⟨mv, hfind, h1, h2, h3, h4, hsnap, hcase⟩ := handleMove_applied h
  rcases hcase with ⟨hr, _⟩ | ⟨_, rfl⟩
  · simp at hr
  · obtain ⟨hg, hid, hcl⟩ := applyPhase_fields st role pm mv
    have hmem := List.mem_of_find?_eq_some hfind
    have hbounds := legalMoves_move_spec hmem
    have hturn : roleToPlayer role ≠ (applyPhase st role pm mv).game.toMove := by
      rw [hg, applyMove_toMove _ _ hbounds.1 hbounds.2.1, ← h4]
      cases hp : roleToPlayer role with
      | none => exact absurd hp h2
      | black => simp
      | white => simp
    have h3' : ¬(pm.gameId ≠ 0 ∧ pm.gameId ≠ (applyPhase st role pm mv).gameId ∧
        (applyPhase st role pm mv).gameId ≠ 0) := by rw [hid]; exact h3
    unfold handleMove
    rw [if_neg h1, if_neg h2, if_neg h3', if_pos hturn]

/-- C7 counterexample. From a fresh server, X submits a5,a4 -1 with
`(game_id, move_id) = (1, 1)`; it is applied. The identical resubmission
is answered with the wrong-turn ERROR naming O, not with the
duplicate-`move_id` ERROR, no snapshot is broadcast, and the state is
unchanged. -/
theorem c7_counterexample :
    (handleMove (handleMove serverInit "X" c7Move).1 "X" c7Move).2 =
      MoveOutcome.errWrongTurn (playerToSymbol .white) ∧
    (handleMove (handleMove serverInit "X" c7Move).1 "X" c7Move).2.isDup = false ∧
    (handleMove (handleMove serverInit "X" c7Move).1 "X" c7Move).1 =
      (handleMove serverInit "X" c7Move).1 := by
  set_option maxRecDepth 1000000 in decide!

/-- Witness for C7's amended theorem: the fresh-server first submission
is accepted without auto-reset, and the theorem then forces the
wrong-turn error on the resubmission. -/
theorem c7_witness :
    handleMove serverInit "X" c7Move =
      ((handleMove serverInit "X" c7Move).1,
        .applied (handleMove serverInit "X" c7Move).2.snapOf false) ∧
    handleMove (handleMove serverInit "X" c7Move).1 "X" c7Move =
      ((handleMove serverInit "X" c7Move).1,
        .errWrongTurn (playerToSymbol
          (handleMove serverInit "X" c7Move).1.game.toMove)) :=
  ⟨by set_option maxRecDepth 1000000 in decide!,
   c7_resubmission serverInit "X" c7Move (handleMove serverInit "X" c7Move).1
     ((handleMove serverInit "X" c7Move).2.snapOf)
     (by set_option maxRecDepth 1000000 in decide!)⟩

/-- C8 (amended). When the accepted move ends the game and both players
are in multi-game mode, the automatic rematch reset increments `game_id`
by exactly one, restores the initial position and status, and clears
both players' ready flags (`reset_game` sets every client's `ready` to
false; it does not leave them unchanged). -/
theorem c8_auto_reset_effects (st : ServerState) (role : String) (pm : ProtoMove)
    (st2 : ServerState) (snap : Snapshot)
    (h : handleMove st role pm = (st2, .applied snap true)) :
    st2.gameId = st.gameId + 1 ∧ st2.game = GameState.initial ∧
    st2.status = "ongoing" ∧
    st2.clients.map Client.ready = st.clients.map fun _ => false := by
  obtain ⟨mv, hfind, h1, h2, h3, h4, hsnap, hcase⟩ := handleMove_applied h
  rcases hcase with ⟨_, rfl⟩ | ⟨hr, _⟩
  · obtain ⟨hg, hid, hcl⟩ := applyPhase_fields st role pm mv
    refine ⟨?_, rfl, rfl, ?_⟩
    · simp [resetGame, hid]
    · simp [resetGame, hcl, List.map_map, Function.comp_def]
  · simp at hr

/-- C8 counterexample. On the winning move in multi-game mode both ready
flags were true before the auto-reset and are false afterwards, so the
reset does not leave them unchanged. -/
theorem c8_counterexample :
    c8State.clients.map Client.ready = [true, true] ∧
    (handleMove c8State "X" c8Move).2 =
      MoveOutcome.applied (handleMove c8State "X" c8Move).2.snapOf true ∧
    (handleMove c8State "X" c8Move).1.clients.map Client.ready = [false, false] := by
  set_option maxRecDepth 1000000 in decide!

/-- Witness for C8's amended theorem at the concrete winning move. -/
theorem c8_witness :
    handleMove c8State "X" c8Move =
      ((handleMove c8State "X" c8Move).1,
        .applied (handleMove c8State "X" c8Move).2.snapOf true) ∧
    ((handleMove c8State "X" c8Move).1.gameId = c8State.gameId + 1 ∧
     (handleMove c8State "X" c8Move).1.game = GameState.initial ∧
     (handleMove c8State "X" c8Move).1.status = "ongoing" ∧
     (handleMove c8State "X" c8Move).1.clients.map Client.ready =
       c8State.clients.map fun _ => false) :=
  ⟨by set_option maxRecDepth 1000000 in decide!,
   c8_auto_reset_effects c8State "X" c8Move (handleMove c8State "X" c8Move).1
     ((handleMove c8State "X" c8Move).2.snapOf)
     (by set_option maxRecDepth 1000000 in decide!)⟩

/-! ## Weight-file loading (`NTupleNetwork::load`) and C9

The loader reads a binary stream: a tuple count, then one
(size, payload) block per piece table, then the hand table size and
payload, then a tile-tuple count and one block per tile table. A block
is modelled as the list of floats it carries (its written size field
equals the payload length for any stream produced by `save`, and the
reader then reads exactly that many floats). In the C++ the outer sizes
`weights_.size()` and `tile_weights_.size()` always equal
`tuples_.size()` and `tile_tuples_.size()` (both are built once in
`init` and never change), so the pattern counts are compared against the
table counts here. Weights are kept polymorphic in `R` as elsewhere. -/

/-- The mutable weight tables of `NTupleNetwork`. -/
structure NetDB (R : Type) where
  weights : List (List R)
  handWeights : List R
  tileWeights : List (List R)
deriving DecidableEq

/-- A weight file's contents as read back. -/
structure NetFile (R : Type) where
  numTuples : Nat
  pieceBlocks : List (List R)
  handSize : Nat
  handData : List R
  numTileTuples : Nat
  tileBlocks : List (List R)
deriving DecidableEq

/-- The per-table loop `w.resize(size); read(w.data(), ...)`: each table
is replaced wholesale by its block (a well-formed stream has one block
per table; with fewer blocks the remaining reads fail and leave their
tables, which no theorem below relies on). -/
def overwriteTables {R : Type} : List (List R) → List (List R) → List (List R)
  | [], _ => []
  | w :: ws, [] => w :: ws
  | _ :: ws, b :: bs => b :: overwriteTables ws bs

/-- `NTupleNetwork::load`: abort before touching anything only on a
piece-tuple-count mismatch; overwrite all piece tables; abort on a hand
size mismatch (piece tables stay overwritten); overwrite the hand table;
abort on a tile-tuple-count mismatch; overwrite the tile tables. -/
def loadNet {R : Type} (db : NetDB R) (f : NetFile R) : NetDB R :=
  if f.numTuples ≠ db.weights.length then db
  else
    let db1 := { db with weights := overwriteTables db.weights f.pieceBlocks }
    if f.handSize ≠ db.handWeights.length then db1
    else
      let db2 := { db1 with handWeights := f.handData }
      if f.numTileTuples ≠ db.tileWeights.length then db2
      else { db2 with tileWeights := overwriteTables db.tileWeights f.tileBlocks }

/-- The freshly initialised network's shape: one piece table of
`3 ^ length` entries per base pattern, 8 hand entries, one tile table
per pattern; entries all zero here (`init` fills them with small values,
which the load behaviour does not depend on). -/
def c9Net : NetDB Int :=
  { weights := basePatterns.map fun p => List.replicate (3 ^ p.length) 0,
    handWeights := List.replicate 8 0,
    tileWeights := basePatterns.map fun p => List.replicate (3 ^ p.length) 0 }

/-- A file with the matching piece-tuple count 16 and all-ones piece
blocks, but a hand table of the wrong size 5. -/
def c9File : NetFile Int :=
  { numTuples := 16,
    pieceBlocks := basePatterns.map fun p => List.replicate (3 ^ p.length) 1,
    handSize := 5,
    handData := List.replicate 5 1,
    numTileTuples := 16,
    tileBlocks := [] }

/-- C9 (amended). `load` is an exact no-op only for the mismatch it
checks first: when the file's piece-tuple count differs from the
network's, it returns before modifying any table. Later structural
mismatches (hand size, tile-tuple count) abort only after earlier tables
have already been overwritten. -/
theorem c9_mismatch_noop {R : Type} (db : NetDB R) (f : NetFile R)
    (h : f.numTuples ≠ db.weights.length) : loadNet db f = db := by
  unfold loadNet
  rw [if_pos h]

/-- C9 counterexample. A file whose piece-tuple count matches but whose
hand size does not is a structural mismatch, yet loading it overwrites
every piece table before the hand check aborts: the load is not a
no-op. -/
theorem c9_counterexample :
    c9File.handSize ≠ c9Net.handWeights.length ∧
    (loadNet c9Net c9File).weights ≠ c9Net.weights := by
  set_option maxRecDepth 10000 in decide

/-- Witness for C9's amended theorem: a piece-tuple count of 3 against
the 16-table network makes the load return the network unchanged. -/
theorem c9_witness :
    ({ c9File with numTuples := 3 } : NetFile Int).numTuples ≠ c9Net.weights.length ∧
    loadNet c9Net { c9File with numTuples := 3 } = c9Net :=
  ⟨by decide, c9_mismatch_noop c9Net { c9File with numTuples := 3 } (by decide)⟩

end Contrast
